import Mathlib

/-!
The 2048 board engine of `src/components/GameBoard.js`.

A shallow embedding of the board functions of the `GameBoard` component and
the properties its specification states about them.

Modelling decisions:

* a tile value is an `Int`, a row a `List Int`, a board a `List (List Int)`,
  so the lengths the source relies on are facts to prove and not part of the
  type;
* JavaScript arrays are mutated in place by `mergeRow` and by
  `addRandomTiles` (on a fresh copy); the embedding passes the updated list on;
* `Math.random` is an explicit finite list of draws that the spawn consumes
  from the front and hands back; a spawn that finds no usable draw in the list
  answers `none`;
* numbers are exact integers (the source's doubles are exact on tile values).
-/

namespace GameBoard

/-- A row of the grid. -/
abbrev Row := List Int

/-- A grid, as a list of rows. -/
abbrev Board := List (List Int)

/-- One pass of the retry loop of `addRandomTiles` reads two random indices,
`Math.floor(Math.random() * 4)` each, and, when the cell is free, a third
random number compared with `0.5`; `coin` is the outcome of
`Math.random() > 0.5`. -/
structure Draw where
  rand1 : Fin 4
  rand2 : Fin 4
  coin : Bool
deriving DecidableEq, Repr

/-- The read `board[r][c]`; `none` stands for the `undefined` of a read
outside the array. -/
def cellAt (board : Board) (r c : Nat) : Option Int :=
  match board[r]? with
  | some row => row[c]?
  | none => none

/-- The read `board[r][c]` as a number, for the reads of `rotateBoard` and
`rotateBoardBack`, which on a 4x4 board are all inside the grid. -/
def rd (board : Board) (r c : Nat) : Int :=
  (cellAt board r c).getD 0

/-- The assignment `board[r][c] = v` on an existing cell. -/
def setCell (board : Board) (r c : Nat) (v : Int) : Board :=
  board.set r ((board.getD r []).set c v)

/-- The loop `while (newRow.length < 4) newRow.push(0)` of `compressRow`, with
the number of passes still allowed as first argument. -/
def pushZeros : Nat → Row → Row
  | 0, newRow => newRow
  | n + 1, newRow => if newRow.length < 4 then pushZeros n (newRow ++ [0]) else newRow

/-- The function `compressRow`: keep the truthy (non-zero) entries, then push zeros while
the row is shorter than 4. Four passes are enough for the loop to end. -/
def compressRow (row : Row) : Row :=
  pushZeros 4 (row.filter (fun val => val != 0))

/-- The body of the loop of `mergeRow` at index `i`. -/
def mergeStep (row : Row) (i : Nat) : Row :=
  if row[i]? = row[i + 1]? then
    (row.set i (row.getD i 0 * 2)).set (i + 1) 0
  else row

/-- The function `mergeRow`: `for (i = 0; i < row.length - 1; i++)` over the row, which
keeps its length throughout. -/
def mergeRow (row : Row) : Row :=
  (List.range (row.length - 1)).foldl mergeStep row

/-- The per-row step of `moveTiles`: compress, merge, compress. -/
def processRow (row : Row) : Row :=
  compressRow (mergeRow (compressRow row))

/-- The row `[board[0][col], board[1][col], board[2][col], board[3][col]]`. -/
def column (board : Board) (col : Nat) : Row :=
  [rd board 0 col, rd board 1 col, rd board 2 col, rd board 3 col]

/-- The function `rotateBoard`, one branch per `case` of its `switch`; `[...board]`
is the board itself. -/
def rotateBoard (board : Board) (direction : String) : Board :=
  if direction = "ArrowUp" then
    (List.range 4).map (fun col => column board col)
  else if direction = "ArrowDown" then
    (List.range 4).map
      (fun col => [rd board 3 col, rd board 2 col, rd board 1 col, rd board 0 col])
  else if direction = "ArrowLeft" then board
  else if direction = "ArrowRight" then board.map List.reverse
  else board

/-- The function `rotateBoardBack`; for `"ArrowDown"` the column index runs from 3 down
to 0. -/
def rotateBoardBack (board : Board) (direction : String) : Board :=
  if direction = "ArrowUp" then
    (List.range 4).map (fun col => column board col)
  else if direction = "ArrowDown" then
    [3, 2, 1, 0].map (fun col => column board col)
  else if direction = "ArrowLeft" then board
  else if direction = "ArrowRight" then board.map List.reverse
  else board

/-- The function `addRandomTiles`: each draw is one pass of `while (!added)`. The result is
the new board with the draws not yet consumed, or `none` when the list holds no
draw that ends the loop. -/
def addRandomTiles : List Draw → Board → Option (Board × List Draw)
  | [], _ => none
  | d :: rest, bd =>
    if cellAt bd d.rand1 d.rand2 = some 0 then
      some (setCell bd d.rand1 d.rand2 (if d.coin then 2 else 4), rest)
    else addRandomTiles rest bd

/-- The slide of `moveTiles`: rotate, process every row, rotate back. -/
def slide (bd : Board) (direction : String) : Board :=
  rotateBoardBack ((rotateBoard bd direction).map processRow) direction

/-- The function `moveTiles`: the slide followed by the unconditional spawn. -/
def moveTiles (draws : List Draw) (bd : Board) (direction : String) :
    Option (Board × List Draw) :=
  addRandomTiles draws (slide bd direction)

/-- The function `createInitialBoard`: a 4x4 grid of zeros with two spawns, the inner call
drawing first. -/
def createInitialBoard (draws : List Draw) : Option (Board × List Draw) :=
  match addRandomTiles draws (List.replicate 4 (List.replicate 4 0)) with
  | none => none
  | some (b, rest) => addRandomTiles rest b

/-- The function `calculateScore`: the two nested `for ... of` loops, comparing every cell
with `currentScore`. -/
def calculateScore (newBoard : Board) (currentScore : Int) : Int :=
  newBoard.foldl
    (fun acc row => row.foldl (fun newScore num =>
      if num > currentScore then newScore + num else newScore) acc)
    currentScore

/-- The component state: the board (`none` for `null`) and the score. -/
structure State where
  board : Option Board
  score : Int
deriving DecidableEq, Repr

/-- The state of `useState(null)` and `useState(0)`. -/
def initialState : State := ⟨none, 0⟩

/-- The keys `handleKeyUp` accepts. -/
def arrowKeys : List String := ["ArrowUp", "ArrowDown", "ArrowLeft", "ArrowRight"]

/-- The handler `handleKeyUp` as a step on the state; `none` when the spawn of the move
does not end within the draws. -/
def handleKeyUp (draws : List Draw) (st : State) (key : String) :
    Option (State × List Draw) :=
  match st.board with
  | none => some (st, draws)
  | some board =>
    if ¬ key ∈ arrowKeys then some (st, draws)
    else
      match moveTiles draws board key with
      | none => none
      | some (newBoard, rest) =>
        some (⟨some newBoard, calculateScore newBoard st.score⟩, rest)

/-- The mount effect: when the board is still `null` it is set to
`createInitialBoard()`; the score is not touched. -/
def mount (draws : List Draw) (st : State) : Option (State × List Draw) :=
  match st.board with
  | some _ => some (st, draws)
  | none =>
    match createInitialBoard draws with
    | none => none
    | some (b, rest) => some (⟨some b, st.score⟩, rest)

/-- The states the component can be in: the initial one, and those the mount
effect or a key press lead to. -/
inductive Reachable : State → Prop
  | init : Reachable initialState
  | mount {st st' : State} {draws rest : List Draw} :
      Reachable st → GameBoard.mount draws st = some (st', rest) → Reachable st'
  | key {st st' : State} {draws rest : List Draw} {key : String} :
      Reachable st → handleKeyUp draws st key = some (st', rest) → Reachable st'

/-- A board of exactly 4 rows of exactly 4 cells. -/
def is4x4 (board : Board) : Prop :=
  board.length = 4 ∧ ∀ row ∈ board, row.length = 4

instance (board : Board) : Decidable (is4x4 board) :=
  inferInstanceAs (Decidable (board.length = 4 ∧ ∀ row ∈ board, row.length = 4))

/-- The reference pairing of the specification on the non-zero values of a
row: two equal neighbours become one tile of double value and both are
consumed, otherwise the left value is kept. -/
def greedyPairs : List Int → List Int
  | a :: b :: rest =>
    if a = b then (2 * a) :: greedyPairs rest else a :: greedyPairs (b :: rest)
  | rest => rest

/-- Right-padding with zeros to length 4. -/
def padTo4 (row : Row) : Row :=
  row ++ List.replicate (4 - row.length) 0

/-- The number of non-zero cells of a board. -/
def countNonZero (board : Board) : Nat :=
  (board.map (fun row => (row.filter (fun v => v != 0)).length)).sum

/-- The number of zero cells of a board. -/
def countZero (board : Board) : Nat :=
  (board.map (fun row => (row.filter (fun v => v == 0)).length)).sum

/-- A tile value: a power of two with exponent at least `m`. -/
def isPow2From (m : Nat) (v : Int) : Prop :=
  ∃ k : Nat, m ≤ k ∧ v = 2 ^ k

/-- Well-formed board: 4x4 with every cell 0 or a power of two of exponent at
least `m`. -/
def wellFormed (m : Nat) (board : Board) : Prop :=
  is4x4 board ∧ ∀ row ∈ board, ∀ v ∈ row, v = 0 ∨ isPow2From m v

/-- No two neighbours of the row are equal and non-zero. -/
def noEqualNeighbours : Row → Prop
  | x :: y :: rest => ¬ (x = y ∧ x ≠ 0) ∧ noEqualNeighbours (y :: rest)
  | _ => True

instance decNoEqualNeighbours : (row : Row) → Decidable (noEqualNeighbours row)
  | [] => isTrue trivial
  | [_] => isTrue trivial
  | x :: y :: rest =>
    have : Decidable (noEqualNeighbours (y :: rest)) := decNoEqualNeighbours (y :: rest)
    inferInstanceAs (Decidable (¬ (x = y ∧ x ≠ 0) ∧ noEqualNeighbours (y :: rest)))

/-- A board without an empty cell. -/
def isFull (board : Board) : Prop :=
  ∀ row ∈ board, ∀ v ∈ row, v ≠ 0

instance (board : Board) : Decidable (isFull board) :=
  inferInstanceAs (Decidable (∀ row ∈ board, ∀ v ∈ row, v ≠ 0))

/-- The function `getColor`: the `switch` over the tile value, one test per
`case`, with the `default` class last. -/
def getColor (num : Int) : String :=
  if num = 2 then "bg-yellow-100 text-yellow-800"
  else if num = 4 then "bg-yellow-200 text-yellow-800"
  else if num = 8 then "bg-orange-300 text-white"
  else if num = 16 then "bg-orange-400 text-white"
  else if num = 32 then "bg-orange-500 text-white"
  else if num = 64 then "bg-red-500 text-white"
  else if num = 128 then "bg-red-600 text-white"
  else if num = 256 then "bg-red-700 text-white"
  else if num = 512 then "bg-purple-500 text-white"
  else if num = 1024 then "bg-purple-600 text-white"
  else if num = 2048 then "bg-purple-700 text-white"
  else "bg-gray-200"

/-- The tile values that have a colour of their own. -/
def colouredValues : List Int := [2, 4, 8, 16, 32, 64, 128, 256, 512, 1024, 2048]

/-- The merge step as the specification words it: only when the entries at
`i` and `i + 1` are equal and non-zero, the left one is doubled and the right
one set to 0. -/
def mergeAdjacentStep (row : Row) (i : Nat) : Row :=
  if row[i]? = row[i + 1]? ∧ row[i]? ≠ some 0 then
    (row.set i (row.getD i 0 * 2)).set (i + 1) 0
  else row

/-- The merge of the specification: the scan `i = 0, 1, 2` from left to right
with `mergeAdjacentStep`. -/
def mergeAdjacent (row : Row) : Row :=
  [0, 1, 2].foldl mergeAdjacentStep row

/-- The sum of all cells of a board. -/
def boardSum (board : Board) : Int :=
  (board.map List.sum).sum

/-- No two horizontally adjacent cells of the 4x4 grid are equal. -/
def noEqualHorizontal (board : Board) : Prop :=
  ∀ r < 4, ∀ c < 3, cellAt board r c ≠ cellAt board r (c + 1)

instance (board : Board) : Decidable (noEqualHorizontal board) :=
  inferInstanceAs (Decidable (∀ r < 4, ∀ c < 3, cellAt board r c ≠ cellAt board r (c + 1)))

/-- No two vertically adjacent cells of the 4x4 grid are equal. -/
def noEqualVertical (board : Board) : Prop :=
  ∀ r < 3, ∀ c < 4, cellAt board r c ≠ cellAt board (r + 1) c

instance (board : Board) : Decidable (noEqualVertical board) :=
  inferInstanceAs (Decidable (∀ r < 3, ∀ c < 4, cellAt board r c ≠ cellAt board (r + 1) c))

/-- No two cells adjacent along the direction of travel are equal: along the
rows for `"ArrowLeft"` and `"ArrowRight"`, along the columns otherwise. -/
def noEqualAlong (board : Board) (direction : String) : Prop :=
  if direction = "ArrowLeft" ∨ direction = "ArrowRight" then noEqualHorizontal board
  else noEqualVertical board

instance (board : Board) (direction : String) : Decidable (noEqualAlong board direction) :=
  inferInstanceAs (Decidable (if direction = "ArrowLeft" ∨ direction = "ArrowRight"
    then noEqualHorizontal board else noEqualVertical board))

/-! ## Rows -/

theorem pushZeros_eq (n : Nat) (row : Row) (h : 4 - row.length ≤ n) :
    pushZeros n row = row ++ List.replicate (4 - row.length) 0 := by
  induction n generalizing row with
  | zero =>
    have h0 : 4 - row.length = 0 := by omega
    simp [pushZeros, h0]
  | succ n ih =>
    unfold pushZeros
    split_ifs with hlt
    · rw [ih _ (by simp; omega)]
      have h1 : 4 - row.length = (4 - (row ++ [0]).length) + 1 := by simp; omega
      rw [h1, List.replicate_succ]
      simp
    · have h0 : 4 - row.length = 0 := by omega
      simp [h0]

theorem compressRow_eq (row : Row) :
    compressRow row = padTo4 (row.filter (fun val => val != 0)) := by
  unfold compressRow padTo4
  exact pushZeros_eq 4 _ (by omega)

theorem mergeRow_four (a b c d : Int) :
    mergeRow [a, b, c, d] = mergeStep (mergeStep (mergeStep [a, b, c, d] 0) 1) 2 := rfl

theorem processRow_four (a b c d : Int) :
    processRow [a, b, c, d] = padTo4 (greedyPairs ([a, b, c, d].filter (fun val => val != 0))) := by
  by_cases ha : a = 0 <;> by_cases hb : b = 0 <;> by_cases hc : c = 0 <;>
    by_cases hd : d = 0 <;>
    simp [processRow, compressRow_eq, padTo4, mergeRow_four, mergeStep, greedyPairs,
      ha, hb, hc, hd] <;>
    split_ifs <;> simp_all <;> omega

theorem length_four {α : Type} (l : List α) (h : l.length = 4) :
    ∃ a b c d, l = [a, b, c, d] := by
  match l, h with
  | [a, b, c, d], _ => exact ⟨a, b, c, d, rfl⟩

theorem mergeStep_length (row : Row) (i : Nat) : (mergeStep row i).length = row.length := by
  unfold mergeStep
  split_ifs <;> simp

theorem mergeRow_length (row : Row) : (mergeRow row).length = row.length := by
  unfold mergeRow
  generalize List.range (row.length - 1) = is
  induction is generalizing row with
  | nil => rfl
  | cons i is ih => simp [List.foldl_cons, ih, mergeStep_length]

theorem compressRow_four_shape (a b c d : Int) :
    ∃ w x y z, compressRow [a, b, c, d] = [w, x, y, z] ∧
      (w = 0 → x = 0) ∧ (x = 0 → y = 0) ∧ (y = 0 → z = 0) := by
  by_cases ha : a = 0 <;> by_cases hb : b = 0 <;> by_cases hc : c = 0 <;>
    by_cases hd : d = 0 <;>
    simp [compressRow_eq, padTo4, ha, hb, hc, hd] <;>
    exact ⟨_, _, _, _, ⟨rfl, rfl, rfl, rfl⟩,
      by intro h; first | rfl | contradiction,
      by intro h; first | rfl | contradiction,
      by intro h; first | rfl | contradiction⟩

theorem processRow_four_shape (a b c d : Int) :
    ∃ w x y z, processRow [a, b, c, d] = [w, x, y, z] ∧
      (w = 0 → x = 0) ∧ (x = 0 → y = 0) ∧ (y = 0 → z = 0) := by
  obtain ⟨a1, b1, c1, d1, h1⟩ := length_four (compressRow [a, b, c, d]) (by
    obtain ⟨w, x, y, z, h, _⟩ := compressRow_four_shape a b c d
    simp [h])
  obtain ⟨a2, b2, c2, d2, h2⟩ := length_four (mergeRow [a1, b1, c1, d1]) (by
    simp [mergeRow_length])
  unfold processRow
  rw [h1, h2]
  exact compressRow_four_shape a2 b2 c2 d2

theorem processRow_fixed_iff (w x y z : Int)
    (hw : w = 0 → x = 0) (hx : x = 0 → y = 0) (hy : y = 0 → z = 0) :
    processRow [w, x, y, z] = [w, x, y, z] ↔
      ¬ (w = x ∧ w ≠ 0) ∧ ¬ (x = y ∧ x ≠ 0) ∧ ¬ (y = z ∧ y ≠ 0) := by
  rw [processRow_four]
  by_cases h1 : w = 0 <;> by_cases h2 : x = 0 <;> by_cases h3 : y = 0 <;>
    by_cases h4 : z = 0 <;>
    simp_all [padTo4, greedyPairs] <;>
    split_ifs <;> simp_all

theorem is4x4_cases (board : Board) (h : is4x4 board) :
    ∃ r0 r1 r2 r3 : Int × Int × Int × Int,
      board = [[r0.1, r0.2.1, r0.2.2.1, r0.2.2.2], [r1.1, r1.2.1, r1.2.2.1, r1.2.2.2],
        [r2.1, r2.2.1, r2.2.2.1, r2.2.2.2], [r3.1, r3.2.1, r3.2.2.1, r3.2.2.2]] := by
  obtain ⟨hl, hr⟩ := h
  obtain ⟨a, b, c, d, rfl⟩ := length_four board hl
  obtain ⟨a0, a1, a2, a3, rfl⟩ := length_four a (hr _ (by simp))
  obtain ⟨b0, b1, b2, b3, rfl⟩ := length_four b (hr _ (by simp))
  obtain ⟨c0, c1, c2, c3, rfl⟩ := length_four c (hr _ (by simp))
  obtain ⟨d0, d1, d2, d3, rfl⟩ := length_four d (hr _ (by simp))
  exact ⟨(a0, a1, a2, a3), (b0, b1, b2, b3), (c0, c1, c2, c3), (d0, d1, d2, d3), rfl⟩

theorem filter_ne_zero_padTo4 (nz : List Int) (h : ∀ v ∈ nz, v ≠ 0) :
    (padTo4 nz).filter (fun val => val != 0) = nz := by
  unfold padTo4
  rw [List.filter_append, List.filter_eq_self.2 (by simpa using h)]
  simp

theorem padTo4_zero_after (nz : List Int) (h : ∀ v ∈ nz, v ≠ 0) (i j : Nat) (v : Int)
    (hi : (padTo4 nz)[i]? = some 0) (hj : (padTo4 nz)[j]? = some v) (hv : v ≠ 0) : j < i := by
  unfold padTo4 at hi hj
  have h1 : nz.length ≤ i := by
    by_contra hlt
    push_neg at hlt
    rw [List.getElem?_append_left hlt] at hi
    exact h 0 (List.getElem?_mem hi) rfl
  have h2 : j < nz.length := by
    by_contra hge
    push_neg at hge
    rw [List.getElem?_append_right hge] at hj
    have := List.getElem?_mem hj
    rw [List.mem_replicate] at this
    exact hv this.2
  omega

/-! ## The spawn -/

theorem setCell_cons_zero (row : Row) (rows : Board) (c : Nat) (v : Int) :
    setCell (row :: rows) 0 c v = row.set c v :: rows := rfl

theorem setCell_cons_succ (row : Row) (rows : Board) (r c : Nat) (v : Int) :
    setCell (row :: rows) (r + 1) c v = row :: setCell rows r c v := rfl

theorem cellAt_cons_zero (row : Row) (rows : Board) (c : Nat) :
    cellAt (row :: rows) 0 c = row[c]? := by
  simp [cellAt]

theorem cellAt_cons_succ (row : Row) (rows : Board) (r c : Nat) :
    cellAt (row :: rows) (r + 1) c = cellAt rows r c := by
  simp [cellAt]

theorem cellAt_nil (r c : Nat) : cellAt [] r c = none := by
  simp [cellAt]

theorem cellAt_setCell_same (bd : Board) (r c : Nat) (x v : Int)
    (h : cellAt bd r c = some x) : cellAt (setCell bd r c v) r c = some v := by
  induction bd generalizing r with
  | nil => simp [cellAt_nil] at h
  | cons row rows ih =>
    cases r with
    | zero =>
      rw [cellAt_cons_zero] at h
      rw [setCell_cons_zero, cellAt_cons_zero]
      obtain ⟨hc, _⟩ := List.getElem?_eq_some_iff.1 h
      simp [hc]
    | succ r =>
      rw [cellAt_cons_succ] at h
      rw [setCell_cons_succ, cellAt_cons_succ]
      exact ih r h

theorem cellAt_setCell_other (bd : Board) (r c r' c' : Nat) (v : Int)
    (hne : (r', c') ≠ (r, c)) : cellAt (setCell bd r c v) r' c' = cellAt bd r' c' := by
  induction bd generalizing r r' with
  | nil => simp [setCell, cellAt_nil]
  | cons row rows ih =>
    cases r with
    | zero =>
      cases r' with
      | zero =>
        have hc : c ≠ c' := by
          intro hcc
          exact hne (by rw [hcc])
        rw [setCell_cons_zero, cellAt_cons_zero, cellAt_cons_zero, List.getElem?_set_ne hc]
      | succ r' => rw [setCell_cons_zero, cellAt_cons_succ, cellAt_cons_succ]
    | succ r =>
      cases r' with
      | zero => rw [setCell_cons_succ, cellAt_cons_zero, cellAt_cons_zero]
      | succ r' =>
        rw [setCell_cons_succ, cellAt_cons_succ, cellAt_cons_succ]
        apply ih
        intro heq
        apply hne
        simp only [Prod.mk.injEq] at heq ⊢
        omega

theorem setCell_is4x4 (bd : Board) (r c : Nat) (v : Int) (h : is4x4 bd) :
    is4x4 (setCell bd r c v) := by
  obtain ⟨hl, hr⟩ := h
  refine ⟨by simp [setCell, hl], ?_⟩
  intro row hrow
  unfold setCell at hrow
  rcases List.mem_or_eq_of_mem_set hrow with hm | rfl
  · exact hr row hm
  · rw [List.length_set]
    by_cases hlt : r < bd.length
    · rw [List.getD_eq_getElem _ _ hlt]
      exact hr _ (List.getElem_mem _)
    · exfalso
      rw [List.set_eq_of_length_le (by omega)] at hrow
      have := hr _ hrow
      rw [List.getD_eq_default _ _ (by omega)] at this
      simp at this

theorem filter_set_length (row : Row) (c : Nat) (v : Int) (h0 : row[c]? = some 0)
    (hv : v ≠ 0) :
    ((row.set c v).filter (fun x => x != 0)).length
      = (row.filter (fun x => x != 0)).length + 1 := by
  induction row generalizing c with
  | nil => simp at h0
  | cons x xs ih =>
    cases c with
    | zero =>
      have hx : x = 0 := by simpa using h0
      simp [hx, hv]
    | succ c =>
      have h1 : xs[c]? = some 0 := by simpa using h0
      have := ih c h1
      by_cases hx : x = 0 <;> simp [hx, this]

theorem countNonZero_setCell (bd : Board) (r c : Nat) (v : Int)
    (h0 : cellAt bd r c = some 0) (hv : v ≠ 0) :
    countNonZero (setCell bd r c v) = countNonZero bd + 1 := by
  induction bd generalizing r with
  | nil => simp [cellAt_nil] at h0
  | cons row rows ih =>
    cases r with
    | zero =>
      rw [cellAt_cons_zero] at h0
      rw [setCell_cons_zero]
      simp only [countNonZero, List.map_cons, List.sum_cons]
      rw [filter_set_length row c v h0 hv]
      omega
    | succ r =>
      rw [cellAt_cons_succ] at h0
      rw [setCell_cons_succ]
      have := ih r h0
      simp only [countNonZero, List.map_cons, List.sum_cons] at this ⊢
      omega

theorem addRandomTiles_cons_pos (d : Draw) (ds : List Draw) (bd : Board)
    (h : cellAt bd d.rand1 d.rand2 = some 0) :
    addRandomTiles (d :: ds) bd
      = some (setCell bd d.rand1 d.rand2 (if d.coin then 2 else 4), ds) := by
  rw [addRandomTiles, if_pos h]

theorem addRandomTiles_cons_neg (d : Draw) (ds : List Draw) (bd : Board)
    (h : ¬ cellAt bd d.rand1 d.rand2 = some 0) :
    addRandomTiles (d :: ds) bd = addRandomTiles ds bd := by
  rw [addRandomTiles, if_neg h]

theorem addRandomTiles_some (draws : List Draw) (bd out : Board) (rest : List Draw)
    (h : addRandomTiles draws bd = some (out, rest)) :
    ∃ d ∈ draws, cellAt bd d.rand1 d.rand2 = some 0 ∧
      out = setCell bd d.rand1 d.rand2 (if d.coin then 2 else 4) := by
  induction draws with
  | nil => simp [addRandomTiles] at h
  | cons d ds ih =>
    by_cases hc : cellAt bd d.rand1 d.rand2 = some 0
    · rw [addRandomTiles_cons_pos d ds bd hc] at h
      simp only [Option.some.injEq, Prod.mk.injEq] at h
      exact ⟨d, by simp, hc, h.1.symm⟩
    · rw [addRandomTiles_cons_neg d ds bd hc] at h
      obtain ⟨d', hd', h'⟩ := ih h
      exact ⟨d', List.mem_cons_of_mem _ hd', h'⟩

theorem addRandomTiles_isSome (draws : List Draw) (bd : Board)
    (h : ∃ d ∈ draws, cellAt bd d.rand1 d.rand2 = some 0) :
    ∃ out rest, addRandomTiles draws bd = some (out, rest) := by
  induction draws with
  | nil => simp at h
  | cons d ds ih =>
    by_cases hc : cellAt bd d.rand1 d.rand2 = some 0
    · exact ⟨_, _, addRandomTiles_cons_pos d ds bd hc⟩
    · rw [addRandomTiles_cons_neg d ds bd hc]
      apply ih
      obtain ⟨d', hd', h'⟩ := h
      rcases List.mem_cons.1 hd' with rfl | hm
      · exact absurd h' hc
      · exact ⟨d', hm, h'⟩

/-! ## The move -/

theorem greedyPairs_mem (l : List Int) (v : Int) (hv : v ∈ greedyPairs l) :
    v ∈ l ∨ ∃ x ∈ l, v = 2 * x := by
  induction l using greedyPairs.induct with
  | case1 a rest ih =>
    rw [greedyPairs, if_pos rfl] at hv
    rcases List.mem_cons.1 hv with rfl | hm
    · exact Or.inr ⟨a, by simp, rfl⟩
    · rcases ih hm with h | ⟨x, hx, rfl⟩
      · exact Or.inl (by simp [h])
      · exact Or.inr ⟨x, by simp [hx], rfl⟩
  | case2 a b rest hab ih =>
    rw [greedyPairs, if_neg hab] at hv
    rcases List.mem_cons.1 hv with rfl | hm
    · exact Or.inl (by simp)
    · rcases ih hm with h | ⟨x, hx, rfl⟩
      · exact Or.inl (List.mem_cons_of_mem _ h)
      · exact Or.inr ⟨x, List.mem_cons_of_mem _ hx, rfl⟩
  | case3 rest hrest =>
    rw [greedyPairs] at hv
    · exact Or.inl hv
    · intro a b rest1 h
      exact hrest a b rest1 h

theorem processRow_mem (row : Row) (h : row.length = 4) (v : Int) (hv : v ∈ processRow row) :
    v = 0 ∨ v ∈ row ∨ ∃ x ∈ row, v = 2 * x := by
  obtain ⟨a, b, c, d, rfl⟩ := length_four row h
  rw [processRow_four, padTo4, List.mem_append] at hv
  rcases hv with hv | hv
  · rcases greedyPairs_mem _ v hv with hm | ⟨x, hx, rfl⟩
    · exact Or.inr (Or.inl (List.mem_filter.1 hm).1)
    · exact Or.inr (Or.inr ⟨x, (List.mem_filter.1 hx).1, rfl⟩)
  · exact Or.inl (List.mem_replicate.1 hv).2

theorem processRow_length (row : Row) (h : row.length = 4) : (processRow row).length = 4 := by
  obtain ⟨a, b, c, d, rfl⟩ := length_four row h
  obtain ⟨w, x, y, z, hP, _⟩ := processRow_four_shape a b c d
  rw [hP]
  rfl

theorem map_processRow_is4x4 (bd : Board) (h : is4x4 bd) : is4x4 (bd.map processRow) := by
  refine ⟨by simp [h.1], ?_⟩
  intro row hrow
  obtain ⟨r, hr, rfl⟩ := List.mem_map.1 hrow
  exact processRow_length r (h.2 r hr)

theorem rotateBoard_cells (P : Int → Prop) (bd : Board) (h4 : is4x4 bd)
    (hP : ∀ row ∈ bd, ∀ v ∈ row, P v) (d : String) (hd : d ∈ arrowKeys) :
    is4x4 (rotateBoard bd d) ∧ ∀ row ∈ rotateBoard bd d, ∀ v ∈ row, P v := by
  obtain ⟨r0, r1, r2, r3, rfl⟩ := is4x4_cases bd h4
  simp only [arrowKeys, List.mem_cons, List.mem_singleton, List.not_mem_nil, or_false] at hd
  rcases hd with rfl | rfl | rfl | rfl <;>
    refine ⟨by simp [is4x4, rotateBoard, column, List.range, List.range.loop], ?_⟩ <;>
    simp [rotateBoard, column, rd, cellAt, List.range, List.range.loop] at hP ⊢ <;>
    tauto

theorem rotateBoardBack_cells (P : Int → Prop) (bd : Board) (h4 : is4x4 bd)
    (hP : ∀ row ∈ bd, ∀ v ∈ row, P v) (d : String) (hd : d ∈ arrowKeys) :
    is4x4 (rotateBoardBack bd d) ∧ ∀ row ∈ rotateBoardBack bd d, ∀ v ∈ row, P v := by
  obtain ⟨r0, r1, r2, r3, rfl⟩ := is4x4_cases bd h4
  simp only [arrowKeys, List.mem_cons, List.mem_singleton, List.not_mem_nil, or_false] at hd
  rcases hd with rfl | rfl | rfl | rfl <;>
    refine ⟨by simp [is4x4, rotateBoardBack, column, List.range, List.range.loop], ?_⟩ <;>
    simp [rotateBoardBack, column, rd, cellAt, List.range, List.range.loop] at hP ⊢ <;>
    tauto

theorem slide_cells (P : Int → Prop) (h0 : P 0) (h2 : ∀ x, P x → P (2 * x)) (bd : Board)
    (h4 : is4x4 bd) (hP : ∀ row ∈ bd, ∀ v ∈ row, P v) (d : String) (hd : d ∈ arrowKeys) :
    is4x4 (slide bd d) ∧ ∀ row ∈ slide bd d, ∀ v ∈ row, P v := by
  obtain ⟨hr4, hrP⟩ := rotateBoard_cells P bd h4 hP d hd
  unfold slide
  apply rotateBoardBack_cells P _ (map_processRow_is4x4 _ hr4) _ d hd
  intro row hrow v hv
  obtain ⟨r, hr, rfl⟩ := List.mem_map.1 hrow
  rcases processRow_mem r (hr4.2 r hr) v hv with rfl | hm | ⟨x, hx, rfl⟩
  · exact h0
  · exact hrP r hr v hm
  · exact h2 x (hrP r hr x hx)

theorem mem_setCell (bd : Board) (r c : Nat) (v : Int) (row : Row)
    (hrow : row ∈ setCell bd r c v) (x : Int) (hx : x ∈ row) :
    x = v ∨ ∃ row' ∈ bd, x ∈ row' := by
  unfold setCell at hrow
  rcases List.mem_or_eq_of_mem_set hrow with hm | rfl
  · exact Or.inr ⟨row, hm, hx⟩
  · rcases List.mem_or_eq_of_mem_set hx with hm | rfl
    · right
      by_cases hlt : r < bd.length
      · rw [List.getD_eq_getElem _ _ hlt] at hm
        exact ⟨_, List.getElem_mem _, hm⟩
      · rw [List.getD_eq_default _ _ (by omega)] at hm
        simp at hm
    · exact Or.inl rfl

theorem addRandomTiles_cells (P : Int → Prop) (h2 : P 2) (h4 : P 4) (draws rest : List Draw)
    (bd out : Board) (hb : is4x4 bd) (hP : ∀ row ∈ bd, ∀ v ∈ row, P v)
    (h : addRandomTiles draws bd = some (out, rest)) :
    is4x4 out ∧ ∀ row ∈ out, ∀ v ∈ row, P v := by
  obtain ⟨d, _, _, rfl⟩ := addRandomTiles_some draws bd out rest h
  refine ⟨setCell_is4x4 _ _ _ _ hb, ?_⟩
  intro row hrow v hv
  rcases mem_setCell _ _ _ _ row hrow v hv with rfl | ⟨row', hr', hv'⟩
  · cases d.coin
    · exact h4
    · exact h2
  · exact hP row' hr' v hv'

theorem filter_zero_add_nonzero (row : Row) :
    (row.filter (fun v => v == 0)).length + (row.filter (fun v => v != 0)).length
      = row.length := by
  induction row with
  | nil => rfl
  | cons x xs ih =>
    by_cases hx : x = 0
    · simp [hx]
      omega
    · simp [hx]
      omega

theorem countZero_add_countNonZero (bd : Board) (h : is4x4 bd) :
    countZero bd + countNonZero bd = 16 := by
  obtain ⟨r0, r1, r2, r3, rfl⟩ := is4x4_cases bd h
  have e0 := filter_zero_add_nonzero [r0.1, r0.2.1, r0.2.2.1, r0.2.2.2]
  have e1 := filter_zero_add_nonzero [r1.1, r1.2.1, r1.2.2.1, r1.2.2.2]
  have e2 := filter_zero_add_nonzero [r2.1, r2.2.1, r2.2.2.1, r2.2.2.2]
  have e3 := filter_zero_add_nonzero [r3.1, r3.2.1, r3.2.2.1, r3.2.2.2]
  simp only [List.length_cons, List.length_nil] at e0 e1 e2 e3
  simp only [countZero, countNonZero, List.map_cons, List.map_nil, List.sum_cons, List.sum_nil]
  omega

theorem isPow2From_double (m : Nat) (x : Int) (h : x = 0 ∨ isPow2From m x) :
    2 * x = 0 ∨ isPow2From m (2 * x) := by
  rcases h with rfl | ⟨k, hk, rfl⟩
  · exact Or.inl rfl
  · exact Or.inr ⟨k + 1, by omega, by rw [pow_succ]; ring⟩

theorem wellFormed_of_two_four (m : Nat) (hm : m ≤ 1) (bd : Board) (h4 : is4x4 bd)
    (h : ∀ row ∈ bd, ∀ v ∈ row, v = 0 ∨ v = 2 ∨ v = 4) : wellFormed m bd := by
  refine ⟨h4, fun row hrow v hv => ?_⟩
  rcases h row hrow v hv with rfl | rfl | rfl
  · exact Or.inl rfl
  · exact Or.inr ⟨1, hm, rfl⟩
  · exact Or.inr ⟨2, by omega, rfl⟩

theorem cellAt_zeroBoard (r c : Fin 4) :
    cellAt (List.replicate 4 (List.replicate 4 0)) r c = some 0 := by
  revert r c
  decide

theorem createInitialBoard_some (draws rest : List Draw) (out : Board)
    (h : createInitialBoard draws = some (out, rest)) :
    ∃ d1 d2 : Draw, (d2.rand1, d2.rand2) ≠ (d1.rand1, d1.rand2) ∧
      out = setCell (setCell (List.replicate 4 (List.replicate 4 0)) d1.rand1 d1.rand2
        (if d1.coin then 2 else 4)) d2.rand1 d2.rand2 (if d2.coin then 2 else 4) ∧
      cellAt (setCell (List.replicate 4 (List.replicate 4 0)) d1.rand1 d1.rand2
        (if d1.coin then 2 else 4)) d2.rand1 d2.rand2 = some 0 := by
  unfold createInitialBoard at h
  split at h
  · simp at h
  · rename_i b rest1 h1
    obtain ⟨d1, _, h10, rfl⟩ := addRandomTiles_some _ _ _ _ h1
    obtain ⟨d2, _, h20, rfl⟩ := addRandomTiles_some _ _ _ _ h
    refine ⟨d1, d2, ?_, rfl, h20⟩
    intro heq
    simp only [Prod.mk.injEq] at heq
    rw [heq.1, heq.2, cellAt_setCell_same _ _ _ 0 _ h10] at h20
    have hv1 : (if d1.coin then (2 : Int) else 4) ≠ 0 := by split_ifs <;> decide
    exact hv1 (Option.some.inj h20)

/-! ## The score -/

theorem foldl_score_row (s : Int) (row : Row) (acc : Int) :
    row.foldl (fun newScore num => if num > s then newScore + num else newScore) acc
      = acc + (row.filter (fun num => num > s)).sum := by
  induction row generalizing acc with
  | nil => simp
  | cons x xs ih =>
    rw [List.foldl_cons, ih]
    by_cases hx : x > s
    · simp [hx, add_assoc]
    · simp [hx]

theorem foldl_score_board (s : Int) (board : Board) (acc : Int) :
    board.foldl
      (fun acc row => row.foldl (fun newScore num =>
        if num > s then newScore + num else newScore) acc) acc
      = acc + (board.map (fun row => (row.filter (fun num => num > s)).sum)).sum := by
  induction board generalizing acc with
  | nil => simp
  | cons row rows ih =>
    rw [List.foldl_cons, ih, foldl_score_row]
    simp [add_assoc]

theorem calculateScore_eq (board : Board) (s : Int) :
    calculateScore board s
      = s + (board.map (fun row => (row.filter (fun num => num > s)).sum)).sum :=
  foldl_score_board s board s

theorem sum_filter_gt_nonneg (s : Int) (hs : 0 ≤ s) (row : Row) :
    0 ≤ (row.filter (fun num => num > s)).sum := by
  apply List.sum_nonneg
  intro x hx
  have := (List.mem_filter.1 hx).2
  simp at this
  omega

theorem le_calculateScore (board : Board) (s : Int) (hs : 0 ≤ s) :
    s ≤ calculateScore board s := by
  rw [calculateScore_eq]
  have : 0 ≤ (board.map (fun row => (row.filter (fun num => num > s)).sum)).sum := by
    apply List.sum_nonneg
    intro x hx
    obtain ⟨row, _, rfl⟩ := List.mem_map.1 hx
    exact sum_filter_gt_nonneg s hs row
  omega

theorem handleKeyUp_score_le (draws rest : List Draw) (st st' : State) (key : String)
    (hs : 0 ≤ st.score) (h : handleKeyUp draws st key = some (st', rest)) :
    st.score ≤ st'.score := by
  unfold handleKeyUp at h
  split at h
  · simp only [Option.some.injEq, Prod.mk.injEq] at h
    rw [← h.1]
  · split_ifs at h with hk
    · split at h
      · simp at h
      · simp only [Option.some.injEq, Prod.mk.injEq] at h
        rw [← h.1]
        exact le_calculateScore _ _ hs
    · simp only [Option.some.injEq, Prod.mk.injEq] at h
      rw [← h.1]

theorem mount_score_eq (draws rest : List Draw) (st st' : State)
    (h : mount draws st = some (st', rest)) : st'.score = st.score := by
  unfold mount at h
  split at h
  · simp only [Option.some.injEq, Prod.mk.injEq] at h
    rw [← h.1]
  · split at h
    · simp at h
    · simp only [Option.some.injEq, Prod.mk.injEq] at h
      rw [← h.1]

theorem reachable_score_nonneg (st : State) (h : Reachable st) : 0 ≤ st.score := by
  induction h with
  | init => simp [initialState]
  | mount _ hm ih => rw [mount_score_eq _ _ _ _ hm]; exact ih
  | key _ hk ih => exact le_trans ih (handleKeyUp_score_le _ _ _ _ _ ih hk)

/-! ## Full boards -/

theorem cellAt_mem (bd : Board) (r c : Nat) (v : Int) (h : cellAt bd r c = some v) :
    ∃ row ∈ bd, v ∈ row := by
  unfold cellAt at h
  split at h
  · rename_i row hrow
    exact ⟨row, List.getElem?_mem hrow, List.getElem?_mem h⟩
  · simp at h

theorem addRandomTiles_full (draws : List Draw) (bd : Board) (hf : isFull bd) :
    addRandomTiles draws bd = none := by
  induction draws with
  | nil => rfl
  | cons d ds ih =>
    rw [addRandomTiles_cons_neg d ds bd ?_, ih]
    intro h0
    obtain ⟨row, hrow, hv⟩ := cellAt_mem bd _ _ 0 h0
    exact hf row hrow 0 hv rfl

/-! ## The score and the cells of the board -/

theorem add_le_calculateScore (board : Board) (s : Int) (hs : 0 ≤ s) (row : Row)
    (hrow : row ∈ board) (v : Int) (hv : v ∈ row) (hgt : v > s) :
    s + v ≤ calculateScore board s := by
  rw [calculateScore_eq]
  have h1 : v ≤ (row.filter (fun num => num > s)).sum := by
    apply List.single_le_sum
    · intro x hx
      have := (List.mem_filter.1 hx).2
      simp at this
      omega
    · exact List.mem_filter.2 ⟨hv, by simpa using hgt⟩
  have h2 : (row.filter (fun num => num > s)).sum
      ≤ (board.map (fun row => (row.filter (fun num => num > s)).sum)).sum := by
    apply List.single_le_sum
    · intro x hx
      obtain ⟨r, _, rfl⟩ := List.mem_map.1 hx
      exact sum_filter_gt_nonneg s hs r
    · exact List.mem_map.2 ⟨row, hrow, rfl⟩
  omega

theorem calculateScore_ge_cell (board : Board) (s : Int) (hs : 0 ≤ s) (row : Row)
    (hrow : row ∈ board) (v : Int) (hv : v ∈ row) : v ≤ calculateScore board s := by
  by_cases hgt : v > s
  · have := add_le_calculateScore board s hs row hrow v hv hgt
    omega
  · have := le_calculateScore board s hs
    omega

theorem calculateScore_of_dominated (board : Board) (s : Int)
    (h : ∀ row ∈ board, ∀ v ∈ row, v ≤ s) : calculateScore board s = s := by
  rw [calculateScore_eq]
  have : (board.map (fun row => (row.filter (fun num => num > s)).sum)).sum = 0 := by
    apply List.sum_eq_zero
    intro x hx
    obtain ⟨row, hrow, rfl⟩ := List.mem_map.1 hx
    have hnil : row.filter (fun num => num > s) = [] := by
      rw [List.filter_eq_nil_iff]
      intro v hv
      have := h row hrow v hv
      simp
      omega
    rw [hnil]
    rfl
  omega

/-! ## The merge and its specification -/

theorem mergeRow_four_cases (a b c d : Int) :
    mergeRow [a, b, c, d] =
      if a = b then (if c = d then [2 * a, 0, 2 * c, 0] else [2 * a, 0, c, d])
      else if b = c then [a, 2 * b, 0, d]
      else if c = d then [a, b, 2 * c, 0] else [a, b, c, d] := by
  rw [mergeRow_four]
  by_cases hab : a = b
  · subst hab
    by_cases hc : c = 0
    · subst hc
      by_cases hd : d = 0
      · subst hd
        simp [mergeStep, mul_comm]
      · have hd' : ¬ (0 : Int) = d := fun h => hd h.symm
        simp [mergeStep, hd, hd', mul_comm]
    · have hc' : ¬ (0 : Int) = c := fun h => hc h.symm
      by_cases hcd : c = d
      · subst hcd
        simp [mergeStep, hc, hc', mul_comm]
      · simp [mergeStep, hc, hc', hcd, mul_comm]
  · by_cases hbc : b = c
    · subst hbc
      by_cases hd : d = 0
      · subst hd
        simp [mergeStep, hab, mul_comm]
      · have hd' : ¬ (0 : Int) = d := fun h => hd h.symm
        simp [mergeStep, hab, hd, hd', mul_comm]
    · by_cases hcd : c = d
      · subst hcd
        simp [mergeStep, hab, hbc, mul_comm]
      · simp [mergeStep, hab, hbc, hcd, mul_comm]

theorem mergeAdjacent_four (a b c d : Int) :
    mergeAdjacent [a, b, c, d]
      = mergeAdjacentStep (mergeAdjacentStep (mergeAdjacentStep [a, b, c, d] 0) 1) 2 := rfl

theorem mergeAdjacent_four_cases (a b c d : Int) :
    mergeAdjacent [a, b, c, d] =
      if a = b then (if c = d then [2 * a, 0, 2 * c, 0] else [2 * a, 0, c, d])
      else if b = c then [a, 2 * b, 0, d]
      else if c = d then [a, b, 2 * c, 0] else [a, b, c, d] := by
  rw [mergeAdjacent_four]
  by_cases hab : a = b
  · subst hab
    by_cases ha : a = 0
    · subst ha
      by_cases hc : c = 0
      · subst hc
        by_cases hd : d = 0
        · subst hd
          simp [mergeAdjacentStep, mul_comm]
        · have hd' : ¬ (0 : Int) = d := fun h => hd h.symm
          simp [mergeAdjacentStep, hd, hd', mul_comm]
      · have hc' : ¬ (0 : Int) = c := fun h => hc h.symm
        by_cases hcd : c = d
        · subst hcd
          simp [mergeAdjacentStep, hc, hc', mul_comm]
        · simp [mergeAdjacentStep, hc, hc', hcd, mul_comm]
    · by_cases hc : c = 0
      · subst hc
        by_cases hd : d = 0
        · subst hd
          simp [mergeAdjacentStep, ha, mul_comm]
        · have hd' : ¬ (0 : Int) = d := fun h => hd h.symm
          simp [mergeAdjacentStep, ha, hd, hd', mul_comm]
      · have hc' : ¬ (0 : Int) = c := fun h => hc h.symm
        by_cases hcd : c = d
        · subst hcd
          simp [mergeAdjacentStep, ha, hc, hc', mul_comm]
        · simp [mergeAdjacentStep, ha, hc, hc', hcd, mul_comm]
  · by_cases hbc : b = c
    · subst hbc
      by_cases hb : b = 0
      · subst hb
        by_cases hd : d = 0
        · subst hd
          simp [mergeAdjacentStep, hab, mul_comm]
        · have hd' : ¬ (0 : Int) = d := fun h => hd h.symm
          simp [mergeAdjacentStep, hab, hd, hd', mul_comm]
      · by_cases hd : d = 0
        · subst hd
          simp [mergeAdjacentStep, hab, hb, mul_comm]
        · have hd' : ¬ (0 : Int) = d := fun h => hd h.symm
          simp [mergeAdjacentStep, hab, hb, hd, hd', mul_comm]
    · by_cases hcd : c = d
      · subst hcd
        by_cases hc : c = 0
        · subst hc
          simp [mergeAdjacentStep, hab, hbc, mul_comm]
        · simp [mergeAdjacentStep, hab, hbc, hc, mul_comm]
      · simp [mergeAdjacentStep, hab, hbc, hcd, mul_comm]

theorem mergeRow_entries_four (a b c d : Int) :
    ∃ w x y z : Int, mergeRow [a, b, c, d] = [w, x, y, z] ∧
      (w = a ∨ w = 2 * a ∨ w = 0) ∧ (x = b ∨ x = 2 * b ∨ x = 0) ∧
      (y = c ∨ y = 2 * c ∨ y = 0) ∧ (z = d ∨ z = 2 * d ∨ z = 0) := by
  rw [mergeRow_four_cases]
  split_ifs <;> exact ⟨_, _, _, _, rfl, by simp, by simp, by simp, by simp⟩

/-! ## The slide on an explicit grid -/

theorem slide_left_explicit (a0 a1 a2 a3 b0 b1 b2 b3 c0 c1 c2 c3 d0 d1 d2 d3 : Int) :
    slide [[a0, a1, a2, a3], [b0, b1, b2, b3], [c0, c1, c2, c3], [d0, d1, d2, d3]] "ArrowLeft"
      = [processRow [a0, a1, a2, a3], processRow [b0, b1, b2, b3],
        processRow [c0, c1, c2, c3], processRow [d0, d1, d2, d3]] := rfl

theorem slide_right_explicit (a0 a1 a2 a3 b0 b1 b2 b3 c0 c1 c2 c3 d0 d1 d2 d3 : Int) :
    slide [[a0, a1, a2, a3], [b0, b1, b2, b3], [c0, c1, c2, c3], [d0, d1, d2, d3]] "ArrowRight"
      = [(processRow [a3, a2, a1, a0]).reverse, (processRow [b3, b2, b1, b0]).reverse,
        (processRow [c3, c2, c1, c0]).reverse, (processRow [d3, d2, d1, d0]).reverse] := rfl

theorem slide_up_explicit (a0 a1 a2 a3 b0 b1 b2 b3 c0 c1 c2 c3 d0 d1 d2 d3 : Int) :
    slide [[a0, a1, a2, a3], [b0, b1, b2, b3], [c0, c1, c2, c3], [d0, d1, d2, d3]] "ArrowUp"
      = rotateBoardBack [processRow [a0, b0, c0, d0], processRow [a1, b1, c1, d1],
        processRow [a2, b2, c2, d2], processRow [a3, b3, c3, d3]] "ArrowUp" := rfl

theorem slide_down_explicit (a0 a1 a2 a3 b0 b1 b2 b3 c0 c1 c2 c3 d0 d1 d2 d3 : Int) :
    slide [[a0, a1, a2, a3], [b0, b1, b2, b3], [c0, c1, c2, c3], [d0, d1, d2, d3]] "ArrowDown"
      = rotateBoardBack [processRow [d0, c0, b0, a0], processRow [d1, c1, b1, a1],
        processRow [d2, c2, b2, a2], processRow [d3, c3, b3, a3]] "ArrowDown" := rfl

theorem rotateBoardBack_up_explicit
    (w0 x0 y0 z0 w1 x1 y1 z1 w2 x2 y2 z2 w3 x3 y3 z3 : Int) :
    rotateBoardBack [[w0, x0, y0, z0], [w1, x1, y1, z1], [w2, x2, y2, z2], [w3, x3, y3, z3]]
        "ArrowUp"
      = [[w0, w1, w2, w3], [x0, x1, x2, x3], [y0, y1, y2, y3], [z0, z1, z2, z3]] := rfl

theorem rotateBoardBack_down_explicit
    (w0 x0 y0 z0 w1 x1 y1 z1 w2 x2 y2 z2 w3 x3 y3 z3 : Int) :
    rotateBoardBack [[w0, x0, y0, z0], [w1, x1, y1, z1], [w2, x2, y2, z2], [w3, x3, y3, z3]]
        "ArrowDown"
      = [[z0, z1, z2, z3], [y0, y1, y2, y3], [x0, x1, x2, x3], [w0, w1, w2, w3]] := rfl

theorem cellAt_bounds (bd : Board) (h4 : is4x4 bd) (r c : Nat) (v : Int)
    (h : cellAt bd r c = some v) : r < 4 ∧ c < 4 := by
  unfold cellAt at h
  split at h
  · rename_i row hrow
    obtain ⟨hr, _⟩ := List.getElem?_eq_some_iff.1 hrow
    obtain ⟨hc, _⟩ := List.getElem?_eq_some_iff.1 h
    have := h4.2 row (List.getElem?_mem hrow)
    have := h4.1
    omega
  · simp at h

/-! ## The sum of the cells -/

theorem sum_filter_ne_zero (l : List Int) : (l.filter (fun val => val != 0)).sum = l.sum := by
  induction l with
  | nil => rfl
  | cons x xs ih =>
    by_cases hx : x = 0
    · simp [hx, ih]
    · simp [hx, ih]

theorem greedyPairs_sum (l : List Int) : (greedyPairs l).sum = l.sum := by
  induction l using greedyPairs.induct with
  | case1 a rest ih =>
    rw [greedyPairs, if_pos rfl]
    simp only [List.sum_cons, ih]
    ring
  | case2 a b rest hab ih =>
    rw [greedyPairs, if_neg hab]
    simp only [List.sum_cons] at ih ⊢
    rw [ih]
  | case3 rest hrest =>
    rw [greedyPairs]
    intro a b rest1 h
    exact hrest a b rest1 h

theorem padTo4_sum (l : List Int) : (padTo4 l).sum = l.sum := by
  simp [padTo4, List.sum_append, List.sum_replicate]

theorem compressRow_sum (row : Row) : (compressRow row).sum = row.sum := by
  rw [compressRow_eq, padTo4_sum, sum_filter_ne_zero]

theorem mergeRow_sum_four (a b c d : Int) : (mergeRow [a, b, c, d]).sum = a + b + c + d := by
  rw [mergeRow_four_cases]
  split_ifs with h1 h2 h3 h4 <;> simp only [List.sum_cons, List.sum_nil] <;> omega

theorem processRow_sum_four (a b c d : Int) :
    (processRow [a, b, c, d]).sum = a + b + c + d := by
  rw [processRow_four, padTo4_sum, greedyPairs_sum, sum_filter_ne_zero]
  simp only [List.sum_cons, List.sum_nil]
  omega

theorem sum_set_zero (row : Row) (c : Nat) (v : Int) (h0 : row[c]? = some 0) :
    (row.set c v).sum = row.sum + v := by
  induction row generalizing c with
  | nil => simp at h0
  | cons x xs ih =>
    cases c with
    | zero =>
      have hx : x = 0 := by simpa using h0
      simp [hx]
      omega
    | succ c =>
      have h1 : xs[c]? = some 0 := by simpa using h0
      simp only [List.set_cons_succ, List.sum_cons, ih c h1]
      omega

theorem boardSum_setCell (bd : Board) (r c : Nat) (v : Int)
    (h0 : cellAt bd r c = some 0) : boardSum (setCell bd r c v) = boardSum bd + v := by
  induction bd generalizing r with
  | nil => simp [cellAt_nil] at h0
  | cons row rows ih =>
    cases r with
    | zero =>
      rw [cellAt_cons_zero] at h0
      rw [setCell_cons_zero]
      simp only [boardSum, List.map_cons, List.sum_cons]
      rw [sum_set_zero row c v h0]
      omega
    | succ r =>
      rw [cellAt_cons_succ] at h0
      rw [setCell_cons_succ]
      have := ih r h0
      simp only [boardSum, List.map_cons, List.sum_cons] at this ⊢
      omega

theorem boardSum_rotateBoard (bd : Board) (h4 : is4x4 bd) (d : String) (hd : d ∈ arrowKeys) :
    boardSum (rotateBoard bd d) = boardSum bd := by
  obtain ⟨r0, r1, r2, r3, rfl⟩ := is4x4_cases bd h4
  simp only [arrowKeys, List.mem_cons, List.mem_singleton, List.not_mem_nil, or_false] at hd
  rcases hd with rfl | rfl | rfl | rfl <;>
    simp [rotateBoard, boardSum, column, rd, cellAt, List.range, List.range.loop] <;>
    omega

theorem boardSum_rotateBoardBack (bd : Board) (h4 : is4x4 bd) (d : String)
    (hd : d ∈ arrowKeys) : boardSum (rotateBoardBack bd d) = boardSum bd := by
  obtain ⟨r0, r1, r2, r3, rfl⟩ := is4x4_cases bd h4
  simp only [arrowKeys, List.mem_cons, List.mem_singleton, List.not_mem_nil, or_false] at hd
  rcases hd with rfl | rfl | rfl | rfl <;>
    simp [rotateBoardBack, boardSum, column, rd, cellAt, List.range, List.range.loop] <;>
    omega

theorem boardSum_map_processRow (bd : Board) (h4 : is4x4 bd) :
    boardSum (bd.map processRow) = boardSum bd := by
  obtain ⟨r0, r1, r2, r3, rfl⟩ := is4x4_cases bd h4
  simp only [boardSum, List.map_cons, List.map_nil, processRow_sum_four, List.sum_cons,
    List.sum_nil]
  omega

theorem boardSum_slide (bd : Board) (h4 : is4x4 bd) (d : String) (hd : d ∈ arrowKeys) :
    boardSum (slide bd d) = boardSum bd := by
  obtain ⟨hr4, _⟩ := rotateBoard_cells (fun _ => True) bd h4 (fun _ _ _ _ => trivial) d hd
  unfold slide
  rw [boardSum_rotateBoardBack _ (map_processRow_is4x4 _ hr4) d hd,
    boardSum_map_processRow _ hr4, boardSum_rotateBoard bd h4 d hd]

/-! ## Stuck boards -/

theorem processRow_stuck (a b c d : Int) (ha : a ≠ 0) (hb : b ≠ 0) (hc : c ≠ 0)
    (hab : a ≠ b) (hbc : b ≠ c) (hcd : c ≠ d) : processRow [a, b, c, d] = [a, b, c, d] :=
  (processRow_fixed_iff a b c d (fun h => absurd h ha) (fun h => absurd h hb)
    (fun h => absurd h hc)).2 ⟨fun h => hab h.1, fun h => hbc h.1, fun h => hcd h.1⟩

theorem isFull_explicit (a0 a1 a2 a3 b0 b1 b2 b3 c0 c1 c2 c3 d0 d1 d2 d3 : Int)
    (h : isFull [[a0, a1, a2, a3], [b0, b1, b2, b3], [c0, c1, c2, c3], [d0, d1, d2, d3]]) :
    (a0 ≠ 0 ∧ a1 ≠ 0 ∧ a2 ≠ 0 ∧ a3 ≠ 0) ∧ (b0 ≠ 0 ∧ b1 ≠ 0 ∧ b2 ≠ 0 ∧ b3 ≠ 0) ∧
    (c0 ≠ 0 ∧ c1 ≠ 0 ∧ c2 ≠ 0 ∧ c3 ≠ 0) ∧ (d0 ≠ 0 ∧ d1 ≠ 0 ∧ d2 ≠ 0 ∧ d3 ≠ 0) := by
  simpa [isFull] using h

theorem noEqualHorizontal_explicit (a0 a1 a2 a3 b0 b1 b2 b3 c0 c1 c2 c3 d0 d1 d2 d3 : Int)
    (h : noEqualHorizontal
      [[a0, a1, a2, a3], [b0, b1, b2, b3], [c0, c1, c2, c3], [d0, d1, d2, d3]]) :
    (a0 ≠ a1 ∧ a1 ≠ a2 ∧ a2 ≠ a3) ∧ (b0 ≠ b1 ∧ b1 ≠ b2 ∧ b2 ≠ b3) ∧
    (c0 ≠ c1 ∧ c1 ≠ c2 ∧ c2 ≠ c3) ∧ (d0 ≠ d1 ∧ d1 ≠ d2 ∧ d2 ≠ d3) := by
  refine ⟨⟨?_, ?_, ?_⟩, ⟨?_, ?_, ?_⟩, ⟨?_, ?_, ?_⟩, ⟨?_, ?_, ?_⟩⟩
  · simpa [cellAt] using h 0 (by omega) 0 (by omega)
  · simpa [cellAt] using h 0 (by omega) 1 (by omega)
  · simpa [cellAt] using h 0 (by omega) 2 (by omega)
  · simpa [cellAt] using h 1 (by omega) 0 (by omega)
  · simpa [cellAt] using h 1 (by omega) 1 (by omega)
  · simpa [cellAt] using h 1 (by omega) 2 (by omega)
  · simpa [cellAt] using h 2 (by omega) 0 (by omega)
  · simpa [cellAt] using h 2 (by omega) 1 (by omega)
  · simpa [cellAt] using h 2 (by omega) 2 (by omega)
  · simpa [cellAt] using h 3 (by omega) 0 (by omega)
  · simpa [cellAt] using h 3 (by omega) 1 (by omega)
  · simpa [cellAt] using h 3 (by omega) 2 (by omega)

theorem noEqualVertical_explicit (a0 a1 a2 a3 b0 b1 b2 b3 c0 c1 c2 c3 d0 d1 d2 d3 : Int)
    (h : noEqualVertical
      [[a0, a1, a2, a3], [b0, b1, b2, b3], [c0, c1, c2, c3], [d0, d1, d2, d3]]) :
    (a0 ≠ b0 ∧ b0 ≠ c0 ∧ c0 ≠ d0) ∧ (a1 ≠ b1 ∧ b1 ≠ c1 ∧ c1 ≠ d1) ∧
    (a2 ≠ b2 ∧ b2 ≠ c2 ∧ c2 ≠ d2) ∧ (a3 ≠ b3 ∧ b3 ≠ c3 ∧ c3 ≠ d3) := by
  refine ⟨⟨?_, ?_, ?_⟩, ⟨?_, ?_, ?_⟩, ⟨?_, ?_, ?_⟩, ⟨?_, ?_, ?_⟩⟩
  · simpa [cellAt] using h 0 (by omega) 0 (by omega)
  · simpa [cellAt] using h 1 (by omega) 0 (by omega)
  · simpa [cellAt] using h 2 (by omega) 0 (by omega)
  · simpa [cellAt] using h 0 (by omega) 1 (by omega)
  · simpa [cellAt] using h 1 (by omega) 1 (by omega)
  · simpa [cellAt] using h 2 (by omega) 1 (by omega)
  · simpa [cellAt] using h 0 (by omega) 2 (by omega)
  · simpa [cellAt] using h 1 (by omega) 2 (by omega)
  · simpa [cellAt] using h 2 (by omega) 2 (by omega)
  · simpa [cellAt] using h 0 (by omega) 3 (by omega)
  · simpa [cellAt] using h 1 (by omega) 3 (by omega)
  · simpa [cellAt] using h 2 (by omega) 3 (by omega)

theorem slide_stuck (bd : Board) (h4 : is4x4 bd) (hf : isFull bd) (d : String)
    (hd : d ∈ arrowKeys) (hne : noEqualAlong bd d) : slide bd d = bd := by
  obtain ⟨r0, r1, r2, r3, rfl⟩ := is4x4_cases bd h4
  obtain ⟨⟨ha0, ha1, ha2, ha3⟩, ⟨hb0, hb1, hb2, hb3⟩, ⟨hc0, hc1, hc2, hc3⟩,
    ⟨hd0, hd1, hd2, hd3⟩⟩ := isFull_explicit _ _ _ _ _ _ _ _ _ _ _ _ _ _ _ _ hf
  simp only [arrowKeys, List.mem_cons, List.mem_singleton, List.not_mem_nil, or_false] at hd
  rcases hd with rfl | rfl | rfl | rfl
  · simp [noEqualAlong] at hne
    obtain ⟨⟨e01, e02, e03⟩, ⟨e11, e12, e13⟩, ⟨e21, e22, e23⟩, ⟨e31, e32, e33⟩⟩ :=
      noEqualVertical_explicit _ _ _ _ _ _ _ _ _ _ _ _ _ _ _ _ hne
    rw [slide_up_explicit, processRow_stuck _ _ _ _ ha0 hb0 hc0 e01 e02 e03,
      processRow_stuck _ _ _ _ ha1 hb1 hc1 e11 e12 e13,
      processRow_stuck _ _ _ _ ha2 hb2 hc2 e21 e22 e23,
      processRow_stuck _ _ _ _ ha3 hb3 hc3 e31 e32 e33, rotateBoardBack_up_explicit]
  · simp [noEqualAlong] at hne
    obtain ⟨⟨e01, e02, e03⟩, ⟨e11, e12, e13⟩, ⟨e21, e22, e23⟩, ⟨e31, e32, e33⟩⟩ :=
      noEqualVertical_explicit _ _ _ _ _ _ _ _ _ _ _ _ _ _ _ _ hne
    rw [slide_down_explicit, processRow_stuck _ _ _ _ hd0 hc0 hb0 e03.symm e02.symm e01.symm,
      processRow_stuck _ _ _ _ hd1 hc1 hb1 e13.symm e12.symm e11.symm,
      processRow_stuck _ _ _ _ hd2 hc2 hb2 e23.symm e22.symm e21.symm,
      processRow_stuck _ _ _ _ hd3 hc3 hb3 e33.symm e32.symm e31.symm,
      rotateBoardBack_down_explicit]
  · simp [noEqualAlong] at hne
    obtain ⟨⟨e01, e02, e03⟩, ⟨e11, e12, e13⟩, ⟨e21, e22, e23⟩, ⟨e31, e32, e33⟩⟩ :=
      noEqualHorizontal_explicit _ _ _ _ _ _ _ _ _ _ _ _ _ _ _ _ hne
    rw [slide_left_explicit, processRow_stuck _ _ _ _ ha0 ha1 ha2 e01 e02 e03,
      processRow_stuck _ _ _ _ hb0 hb1 hb2 e11 e12 e13,
      processRow_stuck _ _ _ _ hc0 hc1 hc2 e21 e22 e23,
      processRow_stuck _ _ _ _ hd0 hd1 hd2 e31 e32 e33]
  · simp [noEqualAlong] at hne
    obtain ⟨⟨e01, e02, e03⟩, ⟨e11, e12, e13⟩, ⟨e21, e22, e23⟩, ⟨e31, e32, e33⟩⟩ :=
      noEqualHorizontal_explicit _ _ _ _ _ _ _ _ _ _ _ _ _ _ _ _ hne
    rw [slide_right_explicit, processRow_stuck _ _ _ _ ha3 ha2 ha1 e03.symm e02.symm e01.symm,
      processRow_stuck _ _ _ _ hb3 hb2 hb1 e13.symm e12.symm e11.symm,
      processRow_stuck _ _ _ _ hc3 hc2 hc1 e23.symm e22.symm e21.symm,
      processRow_stuck _ _ _ _ hd3 hd2 hd1 e33.symm e32.symm e31.symm]
    rfl

/-! ## The direction of a slide -/

theorem line_zeros_trailing (w x y z : Int) (h1 : w = 0 → x = 0) (h2 : x = 0 → y = 0)
    (h3 : y = 0 → z = 0) (i j : Nat) (v : Int) (hij : i < j)
    (hi : [w, x, y, z][i]? = some 0) (hj : [w, x, y, z][j]? = some v) : v = 0 := by
  have hj4 : j < 4 := by
    obtain ⟨h, _⟩ := List.getElem?_eq_some_iff.1 hj
    simpa using h
  interval_cases j <;> interval_cases i <;> simp at hi hj <;> omega

theorem line_zeros_leading (w x y z : Int) (h1 : w = 0 → x = 0) (h2 : x = 0 → y = 0)
    (h3 : y = 0 → z = 0) (i j : Nat) (v : Int) (hij : i < j)
    (hj : [z, y, x, w][j]? = some 0) (hi : [z, y, x, w][i]? = some v) : v = 0 := by
  have hj4 : j < 4 := by
    obtain ⟨h, _⟩ := List.getElem?_eq_some_iff.1 hj
    simpa using h
  interval_cases j <;> interval_cases i <;> simp at hi hj <;> omega

theorem cellAt_rows (R0 R1 R2 R3 : Row) (r c : Nat) (v : Int)
    (h : cellAt [R0, R1, R2, R3] r c = some v) :
    (r = 0 ∧ R0[c]? = some v) ∨ (r = 1 ∧ R1[c]? = some v) ∨
    (r = 2 ∧ R2[c]? = some v) ∨ (r = 3 ∧ R3[c]? = some v) := by
  rcases r with _ | _ | _ | _ | r <;> simp [cellAt] at h ⊢ <;> exact h

theorem cellAt_cols (m00 m01 m02 m03 m10 m11 m12 m13 m20 m21 m22 m23 m30 m31 m32 m33 : Int)
    (r c : Nat) (v : Int)
    (h : cellAt [[m00, m01, m02, m03], [m10, m11, m12, m13], [m20, m21, m22, m23],
      [m30, m31, m32, m33]] r c = some v) :
    (c = 0 ∧ [m00, m10, m20, m30][r]? = some v) ∨ (c = 1 ∧ [m01, m11, m21, m31][r]? = some v) ∨
    (c = 2 ∧ [m02, m12, m22, m32][r]? = some v) ∨ (c = 3 ∧ [m03, m13, m23, m33][r]? = some v) := by
  rcases c with _ | _ | _ | _ | c <;> rcases r with _ | _ | _ | _ | r <;>
    simp [cellAt] at h ⊢ <;> exact h

theorem slide_left_zero_order (bd : Board) (h4 : is4x4 bd) (r c1 c2 : Nat) (v : Int)
    (hlt : c1 < c2) (h1 : cellAt (slide bd "ArrowLeft") r c1 = some 0)
    (h2 : cellAt (slide bd "ArrowLeft") r c2 = some v) : v = 0 := by
  obtain ⟨r0, r1, r2, r3, rfl⟩ := is4x4_cases bd h4
  obtain ⟨w0, x0, y0, z0, hP0, p0, q0, s0⟩ :=
    processRow_four_shape r0.1 r0.2.1 r0.2.2.1 r0.2.2.2
  obtain ⟨w1, x1, y1, z1, hP1, p1, q1, s1⟩ :=
    processRow_four_shape r1.1 r1.2.1 r1.2.2.1 r1.2.2.2
  obtain ⟨w2, x2, y2, z2, hP2, p2, q2, s2⟩ :=
    processRow_four_shape r2.1 r2.2.1 r2.2.2.1 r2.2.2.2
  obtain ⟨w3, x3, y3, z3, hP3, p3, q3, s3⟩ :=
    processRow_four_shape r3.1 r3.2.1 r3.2.2.1 r3.2.2.2
  rw [slide_left_explicit, hP0, hP1, hP2, hP3] at h1 h2
  rcases cellAt_rows _ _ _ _ _ _ _ h1 with ⟨rfl, g1⟩ | ⟨rfl, g1⟩ | ⟨rfl, g1⟩ | ⟨rfl, g1⟩ <;>
    rcases cellAt_rows _ _ _ _ _ _ _ h2 with ⟨e, g2⟩ | ⟨e, g2⟩ | ⟨e, g2⟩ | ⟨e, g2⟩ <;>
    first
    | omega
    | exact line_zeros_trailing _ _ _ _ p0 q0 s0 _ _ _ hlt g1 g2
    | exact line_zeros_trailing _ _ _ _ p1 q1 s1 _ _ _ hlt g1 g2
    | exact line_zeros_trailing _ _ _ _ p2 q2 s2 _ _ _ hlt g1 g2
    | exact line_zeros_trailing _ _ _ _ p3 q3 s3 _ _ _ hlt g1 g2

theorem slide_right_zero_order (bd : Board) (h4 : is4x4 bd) (r c1 c2 : Nat) (v : Int)
    (hlt : c1 < c2) (h1 : cellAt (slide bd "ArrowRight") r c2 = some 0)
    (h2 : cellAt (slide bd "ArrowRight") r c1 = some v) : v = 0 := by
  obtain ⟨r0, r1, r2, r3, rfl⟩ := is4x4_cases bd h4
  obtain ⟨w0, x0, y0, z0, hP0, p0, q0, s0⟩ :=
    processRow_four_shape r0.2.2.2 r0.2.2.1 r0.2.1 r0.1
  obtain ⟨w1, x1, y1, z1, hP1, p1, q1, s1⟩ :=
    processRow_four_shape r1.2.2.2 r1.2.2.1 r1.2.1 r1.1
  obtain ⟨w2, x2, y2, z2, hP2, p2, q2, s2⟩ :=
    processRow_four_shape r2.2.2.2 r2.2.2.1 r2.2.1 r2.1
  obtain ⟨w3, x3, y3, z3, hP3, p3, q3, s3⟩ :=
    processRow_four_shape r3.2.2.2 r3.2.2.1 r3.2.1 r3.1
  rw [slide_right_explicit, hP0, hP1, hP2, hP3] at h1 h2
  simp only [List.reverse_cons, List.reverse_nil, List.nil_append, List.cons_append] at h1 h2
  rcases cellAt_rows _ _ _ _ _ _ _ h1 with ⟨rfl, g1⟩ | ⟨rfl, g1⟩ | ⟨rfl, g1⟩ | ⟨rfl, g1⟩ <;>
    rcases cellAt_rows _ _ _ _ _ _ _ h2 with ⟨e, g2⟩ | ⟨e, g2⟩ | ⟨e, g2⟩ | ⟨e, g2⟩ <;>
    first
    | omega
    | exact line_zeros_leading _ _ _ _ p0 q0 s0 _ _ _ hlt g1 g2
    | exact line_zeros_leading _ _ _ _ p1 q1 s1 _ _ _ hlt g1 g2
    | exact line_zeros_leading _ _ _ _ p2 q2 s2 _ _ _ hlt g1 g2
    | exact line_zeros_leading _ _ _ _ p3 q3 s3 _ _ _ hlt g1 g2

theorem slide_up_zero_order (bd : Board) (h4 : is4x4 bd) (i1 i2 c : Nat) (v : Int)
    (hlt : i1 < i2) (h1 : cellAt (slide bd "ArrowUp") i1 c = some 0)
    (h2 : cellAt (slide bd "ArrowUp") i2 c = some v) : v = 0 := by
  obtain ⟨r0, r1, r2, r3, rfl⟩ := is4x4_cases bd h4
  obtain ⟨w0, x0, y0, z0, hP0, p0, q0, s0⟩ := processRow_four_shape r0.1 r1.1 r2.1 r3.1
  obtain ⟨w1, x1, y1, z1, hP1, p1, q1, s1⟩ :=
    processRow_four_shape r0.2.1 r1.2.1 r2.2.1 r3.2.1
  obtain ⟨w2, x2, y2, z2, hP2, p2, q2, s2⟩ :=
    processRow_four_shape r0.2.2.1 r1.2.2.1 r2.2.2.1 r3.2.2.1
  obtain ⟨w3, x3, y3, z3, hP3, p3, q3, s3⟩ :=
    processRow_four_shape r0.2.2.2 r1.2.2.2 r2.2.2.2 r3.2.2.2
  rw [slide_up_explicit, hP0, hP1, hP2, hP3, rotateBoardBack_up_explicit] at h1 h2
  rcases cellAt_cols _ _ _ _ _ _ _ _ _ _ _ _ _ _ _ _ _ _ _ h1 with
    ⟨rfl, g1⟩ | ⟨rfl, g1⟩ | ⟨rfl, g1⟩ | ⟨rfl, g1⟩ <;>
    rcases cellAt_cols _ _ _ _ _ _ _ _ _ _ _ _ _ _ _ _ _ _ _ h2 with
      ⟨e, g2⟩ | ⟨e, g2⟩ | ⟨e, g2⟩ | ⟨e, g2⟩ <;>
    first
    | omega
    | exact line_zeros_trailing _ _ _ _ p0 q0 s0 _ _ _ hlt g1 g2
    | exact line_zeros_trailing _ _ _ _ p1 q1 s1 _ _ _ hlt g1 g2
    | exact line_zeros_trailing _ _ _ _ p2 q2 s2 _ _ _ hlt g1 g2
    | exact line_zeros_trailing _ _ _ _ p3 q3 s3 _ _ _ hlt g1 g2

theorem slide_down_zero_order (bd : Board) (h4 : is4x4 bd) (i1 i2 c : Nat) (v : Int)
    (hlt : i1 < i2) (h1 : cellAt (slide bd "ArrowDown") i2 c = some 0)
    (h2 : cellAt (slide bd "ArrowDown") i1 c = some v) : v = 0 := by
  obtain ⟨r0, r1, r2, r3, rfl⟩ := is4x4_cases bd h4
  obtain ⟨w0, x0, y0, z0, hP0, p0, q0, s0⟩ := processRow_four_shape r3.1 r2.1 r1.1 r0.1
  obtain ⟨w1, x1, y1, z1, hP1, p1, q1, s1⟩ :=
    processRow_four_shape r3.2.1 r2.2.1 r1.2.1 r0.2.1
  obtain ⟨w2, x2, y2, z2, hP2, p2, q2, s2⟩ :=
    processRow_four_shape r3.2.2.1 r2.2.2.1 r1.2.2.1 r0.2.2.1
  obtain ⟨w3, x3, y3, z3, hP3, p3, q3, s3⟩ :=
    processRow_four_shape r3.2.2.2 r2.2.2.2 r1.2.2.2 r0.2.2.2
  rw [slide_down_explicit, hP0, hP1, hP2, hP3, rotateBoardBack_down_explicit] at h1 h2
  rcases cellAt_cols _ _ _ _ _ _ _ _ _ _ _ _ _ _ _ _ _ _ _ h1 with
    ⟨rfl, g1⟩ | ⟨rfl, g1⟩ | ⟨rfl, g1⟩ | ⟨rfl, g1⟩ <;>
    rcases cellAt_cols _ _ _ _ _ _ _ _ _ _ _ _ _ _ _ _ _ _ _ h2 with
      ⟨e, g2⟩ | ⟨e, g2⟩ | ⟨e, g2⟩ | ⟨e, g2⟩ <;>
    first
    | omega
    | exact line_zeros_leading _ _ _ _ p0 q0 s0 _ _ _ hlt g1 g2
    | exact line_zeros_leading _ _ _ _ p1 q1 s1 _ _ _ hlt g1 g2
    | exact line_zeros_leading _ _ _ _ p2 q2 s2 _ _ _ hlt g1 g2
    | exact line_zeros_leading _ _ _ _ p3 q3 s3 _ _ _ hlt g1 g2

/-! ## Claims -/

/-- C1: on every row of length 4 the per-row step of `moveTiles` (compress,
merge, compress) is the greedy left-to-right pairing of the non-zero values of
the row, right-padded with zeros to length 4; in particular, for `a > 0`,
`[a,a,a,a]` gives `[2a,2a,0,0]`, `[a,0,a,a]` gives `[2a,a,0,0]` and `[a,a,0,0]`
gives `[2a,0,0,0]`, so a merged tile does not merge again in the same move. -/
theorem processRow_eq_greedyPairs :
    (∀ row : Row, row.length = 4 → (∀ v ∈ row, 0 ≤ v) →
      processRow row = padTo4 (greedyPairs (row.filter (fun val => val != 0)))) ∧
    (∀ a : Int, 0 < a →
      processRow [a, a, a, a] = [2 * a, 2 * a, 0, 0] ∧
      processRow [a, 0, a, a] = [2 * a, a, 0, 0] ∧
      processRow [a, a, 0, 0] = [2 * a, 0, 0, 0]) := by
  refine ⟨fun row h _ => ?_, fun a ha => ?_⟩
  · obtain ⟨a, b, c, d, rfl⟩ := length_four row h
    exact processRow_four a b c d
  · have h0 : a ≠ 0 := by omega
    refine ⟨?_, ?_, ?_⟩ <;> rw [processRow_four] <;> simp [h0, greedyPairs, padTo4]

theorem processRow_eq_greedyPairs_witness :
    processRow [2, 0, 2, 2] = padTo4 (greedyPairs [2, 2, 2]) ∧
    processRow [2, 2, 2, 2] = [4, 4, 0, 0] ∧ processRow [2, 0, 2, 2] = [4, 2, 0, 0] ∧
    processRow [2, 2, 0, 0] = [4, 0, 0, 0] :=
  ⟨processRow_eq_greedyPairs.1 [2, 0, 2, 2] rfl (by decide),
    processRow_eq_greedyPairs.2 2 (by decide)⟩

/-- C2: for every 4x4 board and each of the four arrow directions,
`rotateBoardBack (rotateBoard board d) d` is the board again, also for
`"ArrowDown"`, where the two functions walk the columns in opposite orders. -/
theorem rotateBoardBack_rotateBoard (board : Board) (h : is4x4 board) (d : String)
    (hd : d ∈ arrowKeys) : rotateBoardBack (rotateBoard board d) d = board := by
  obtain ⟨r0, r1, r2, r3, rfl⟩ := is4x4_cases board h
  simp only [arrowKeys, List.mem_cons, List.mem_singleton, List.not_mem_nil, or_false] at hd
  rcases hd with rfl | rfl | rfl | rfl <;> rfl

theorem rotateBoardBack_rotateBoard_witness :
    rotateBoardBack (rotateBoard
      [[1, 2, 3, 4], [5, 6, 7, 8], [9, 10, 11, 12], [13, 14, 15, 16]] "ArrowDown") "ArrowDown"
      = [[1, 2, 3, 4], [5, 6, 7, 8], [9, 10, 11, 12], [13, 14, 15, 16]] :=
  rotateBoardBack_rotateBoard _ (by decide) "ArrowDown" (by decide)

/-- C3: for every row of length 4, `compressRow` returns a row of length 4
whose non-zero entries are the non-zero entries of the input in the same order
(so also the same multiset), and in which no zero stands before a non-zero
entry. -/
theorem compressRow_spec (row : Row) (h : row.length = 4) (_hnn : ∀ v ∈ row, 0 ≤ v) :
    (compressRow row).length = 4 ∧
    (compressRow row).filter (fun val => val != 0) = row.filter (fun val => val != 0) ∧
    (∀ i j : Nat, ∀ v : Int, (compressRow row)[i]? = some 0 →
      (compressRow row)[j]? = some v → v ≠ 0 → j < i) := by
  have hnz : ∀ v ∈ row.filter (fun val => val != 0), v ≠ 0 := by
    intro v hv
    simpa using (List.mem_filter.1 hv).2
  have hlen : (row.filter (fun val => val != 0)).length ≤ 4 := by
    have := List.length_filter_le (fun val : Int => val != 0) row
    omega
  refine ⟨?_, ?_, ?_⟩
  · rw [compressRow_eq]
    unfold padTo4
    simp
    omega
  · rw [compressRow_eq]
    exact filter_ne_zero_padTo4 _ hnz
  · intro i j v hi hj hv
    rw [compressRow_eq] at hi hj
    exact padTo4_zero_after _ hnz i j v hi hj hv

theorem compressRow_spec_witness :
    (compressRow [0, 2, 0, 4]).length = 4 ∧
    (compressRow [0, 2, 0, 4]).filter (fun val => val != 0)
      = [0, 2, 0, 4].filter (fun val => val != 0) ∧
    (∀ i j : Nat, ∀ v : Int, (compressRow [0, 2, 0, 4])[i]? = some 0 →
      (compressRow [0, 2, 0, 4])[j]? = some v → v ≠ 0 → j < i) :=
  compressRow_spec [0, 2, 0, 4] rfl (by decide)

/-- C4: with `P` the per-row step (compress, merge, compress), for every row
`R` of length 4 of non-negative integers `P (P R) = P R` holds if and only if
`P R` has no two adjacent entries that are equal and non-zero. -/
theorem processRow_idempotent_iff (row : Row) (h : row.length = 4) (hnn : ∀ v ∈ row, 0 ≤ v) :
    processRow (processRow row) = processRow row ↔ noEqualNeighbours (processRow row) := by
  obtain ⟨a, b, c, d, rfl⟩ := length_four row h
  obtain ⟨w, x, y, z, hP, hw, hx, hy⟩ := processRow_four_shape a b c d
  rw [hP, processRow_fixed_iff w x y z hw hx hy]
  simp [noEqualNeighbours]

theorem processRow_idempotent_iff_witness :
    (processRow (processRow [2, 2, 4, 0]) = processRow [2, 2, 4, 0] ↔
      noEqualNeighbours (processRow [2, 2, 4, 0])) ∧
    ¬ noEqualNeighbours (processRow [2, 2, 4, 0]) ∧
    (processRow (processRow [2, 0, 2, 2]) = processRow [2, 0, 2, 2] ↔
      noEqualNeighbours (processRow [2, 0, 2, 2])) ∧
    noEqualNeighbours (processRow [2, 0, 2, 2]) :=
  ⟨processRow_idempotent_iff [2, 2, 4, 0] rfl (by decide), by decide,
    processRow_idempotent_iff [2, 0, 2, 2] rfl (by decide), by decide⟩

/-- C5: with the random draws an arbitrary list of (row, column, coin)
choices, on every 4x4 board with at least one zero cell the retry loop of
`addRandomTiles` ends exactly when some draw of the list names a zero cell, and
whenever it ends the returned board is 4x4 and differs from the input in exactly
one cell, which was 0 and is now 2 or 4; no non-zero cell is overwritten and the
number of non-zero cells grows by exactly 1. -/
theorem addRandomTiles_spec (bd : Board) (h4 : is4x4 bd)
    (_hz : ∃ r c : Nat, cellAt bd r c = some 0) (draws : List Draw) :
    ((∃ out rest, addRandomTiles draws bd = some (out, rest)) ↔
      ∃ d ∈ draws, cellAt bd d.rand1 d.rand2 = some 0) ∧
    ∀ out rest, addRandomTiles draws bd = some (out, rest) →
      is4x4 out ∧
      (∃ r c : Nat, cellAt bd r c = some 0 ∧
        (cellAt out r c = some 2 ∨ cellAt out r c = some 4) ∧
        ∀ r' c' : Nat, (r', c') ≠ (r, c) → cellAt out r' c' = cellAt bd r' c') ∧
      (∀ (r c : Nat) (v : Int), cellAt bd r c = some v → v ≠ 0 → cellAt out r c = some v) ∧
      countNonZero out = countNonZero bd + 1 := by
  refine ⟨⟨?_, addRandomTiles_isSome draws bd⟩, ?_⟩
  · rintro ⟨out, rest, h⟩
    obtain ⟨d, hd, h0, _⟩ := addRandomTiles_some draws bd out rest h
    exact ⟨d, hd, h0⟩
  · intro out rest h
    obtain ⟨d, _, h0, rfl⟩ := addRandomTiles_some draws bd out rest h
    have hv : (if d.coin then (2 : Int) else 4) ≠ 0 := by split_ifs <;> decide
    refine ⟨setCell_is4x4 _ _ _ _ h4, ⟨d.rand1, d.rand2, h0, ?_, ?_⟩, ?_, ?_⟩
    · rw [cellAt_setCell_same bd _ _ 0 _ h0]
      cases d.coin <;> simp
    · intro r' c' hne
      exact cellAt_setCell_other bd _ _ r' c' _ hne
    · intro r c v hrc hv0
      rw [cellAt_setCell_other bd _ _ r c _ ?_, hrc]
      intro heq
      simp only [Prod.mk.injEq] at heq
      rw [heq.1, heq.2, h0] at hrc
      exact hv0 (by simpa using hrc.symm)
    · exact countNonZero_setCell bd _ _ _ h0 hv

theorem addRandomTiles_spec_witness :
    addRandomTiles [⟨0, 0, true⟩, ⟨1, 2, false⟩]
        [[2, 0, 0, 0], [0, 0, 0, 0], [0, 0, 0, 0], [0, 0, 0, 4]]
      = some ([[2, 0, 0, 0], [0, 0, 4, 0], [0, 0, 0, 0], [0, 0, 0, 4]], []) ∧
    countNonZero [[2, 0, 0, 0], [0, 0, 4, 0], [0, 0, 0, 0], [0, 0, 0, 4]]
      = countNonZero [[2, 0, 0, 0], [0, 0, 0, 0], [0, 0, 0, 0], [0, 0, 0, 4]] + 1 :=
  ⟨by decide,
    ((addRandomTiles_spec [[2, 0, 0, 0], [0, 0, 0, 0], [0, 0, 0, 0], [0, 0, 0, 4]]
      (by decide) ⟨0, 1, by decide⟩ [⟨0, 0, true⟩, ⟨1, 2, false⟩]).2
      [[2, 0, 0, 0], [0, 0, 4, 0], [0, 0, 0, 0], [0, 0, 0, 4]] [] (by decide)).2.2.2⟩

/-- C6: a move preserves board well-formedness: for every board of exactly 4
rows of exactly 4 cells, each 0 or a power of two (read with or without the
value 1: exponent at least `m` for `m = 0` and for `m = 1`), every arrow
direction and every list of draws on which the spawn ends, `moveTiles` returns
such a board again, and the spawn ends as soon as a draw names a zero cell of
the slid board; the board of `createInitialBoard` satisfies the predicate too. -/
theorem moveTiles_wellFormed (m : Nat) (hm : m ≤ 1) :
    (∀ (bd : Board) (direction : String), wellFormed m bd → direction ∈ arrowKeys →
      ∀ draws : List Draw,
        ((∃ d ∈ draws, cellAt (slide bd direction) d.rand1 d.rand2 = some 0) →
          ∃ out rest, moveTiles draws bd direction = some (out, rest)) ∧
        ∀ out rest, moveTiles draws bd direction = some (out, rest) → wellFormed m out) ∧
    (∀ (draws : List Draw) (out : Board) (rest : List Draw),
      createInitialBoard draws = some (out, rest) → wellFormed m out) := by
  have h2 : (2 : Int) = 0 ∨ isPow2From m 2 := Or.inr ⟨1, hm, rfl⟩
  have h4 : (4 : Int) = 0 ∨ isPow2From m 4 := Or.inr ⟨2, by omega, rfl⟩
  refine ⟨fun bd direction hwf hd draws => ⟨addRandomTiles_isSome draws _, ?_⟩, ?_⟩
  · intro out rest h
    obtain ⟨hs4, hsP⟩ := slide_cells (fun v => v = 0 ∨ isPow2From m v) (Or.inl rfl)
      (isPow2From_double m) bd hwf.1 hwf.2 direction hd
    exact addRandomTiles_cells (fun v => v = 0 ∨ isPow2From m v) h2 h4 draws rest _ out
      hs4 hsP h
  · intro draws out rest h
    unfold createInitialBoard at h
    split at h
    · simp at h
    · rename_i b rest1 h1
      have hz : ∀ row ∈ List.replicate 4 (List.replicate 4 (0 : Int)), ∀ v ∈ row,
          v = 0 ∨ isPow2From m v := by
        intro row hrow v hv
        rw [(List.mem_replicate.1 hrow).2] at hv
        exact Or.inl (List.mem_replicate.1 hv).2
      obtain ⟨hb4, hbP⟩ := addRandomTiles_cells (fun v => v = 0 ∨ isPow2From m v) h2 h4
        draws rest1 _ b (by decide) hz h1
      exact addRandomTiles_cells (fun v => v = 0 ∨ isPow2From m v) h2 h4 rest1 rest b out
        hb4 hbP h

theorem moveTiles_wellFormed_witness :
    moveTiles [⟨0, 0, true⟩, ⟨3, 3, false⟩]
        [[2, 2, 0, 0], [0, 0, 0, 0], [0, 4, 0, 4], [0, 0, 0, 0]] "ArrowLeft"
      = some ([[4, 0, 0, 0], [0, 0, 0, 0], [8, 0, 0, 0], [0, 0, 0, 4]], []) ∧
    wellFormed 1 [[4, 0, 0, 0], [0, 0, 0, 0], [8, 0, 0, 0], [0, 0, 0, 4]] :=
  ⟨by decide,
    ((moveTiles_wellFormed 1 (by decide)).1
      [[2, 2, 0, 0], [0, 0, 0, 0], [0, 4, 0, 4], [0, 0, 0, 0]] "ArrowLeft"
      (wellFormed_of_two_four 1 (by decide) _ (by decide) (by decide)) (by decide)
      [⟨0, 0, true⟩, ⟨3, 3, false⟩]).2 _ [] (by decide)⟩

/-- C7: for every list of draws on which both spawns end, `createInitialBoard`
returns a 4x4 board with exactly two non-zero cells, each 2 or 4, at two
different positions, and fourteen zero cells; both spawns end as soon as the
list holds a draw after the first one that names another cell. -/
theorem createInitialBoard_spec (draws : List Draw) :
    (∀ (out : Board) (rest : List Draw), createInitialBoard draws = some (out, rest) →
      is4x4 out ∧ countNonZero out = 2 ∧ countZero out = 14 ∧
      (∀ row ∈ out, ∀ v ∈ row, v = 0 ∨ v = 2 ∨ v = 4) ∧
      ∃ r1 c1 r2 c2 : Nat, (r2, c2) ≠ (r1, c1) ∧
        (cellAt out r1 c1 = some 2 ∨ cellAt out r1 c1 = some 4) ∧
        (cellAt out r2 c2 = some 2 ∨ cellAt out r2 c2 = some 4)) ∧
    (∀ (d1 : Draw) (ds : List Draw), draws = d1 :: ds →
      (∃ d ∈ ds, (d.rand1, d.rand2) ≠ (d1.rand1, d1.rand2)) →
      ∃ out rest, createInitialBoard draws = some (out, rest)) := by
  constructor
  · intro out rest h
    obtain ⟨d1, d2, hne, rfl, h20⟩ := createInitialBoard_some draws rest out h
    have h10 := cellAt_zeroBoard d1.rand1 d1.rand2
    have hv1 : (if d1.coin then (2 : Int) else 4) ≠ 0 := by split_ifs <;> decide
    have hv2 : (if d2.coin then (2 : Int) else 4) ≠ 0 := by split_ifs <;> decide
    have h4 : is4x4 (setCell (setCell (List.replicate 4 (List.replicate 4 0)) d1.rand1
        d1.rand2 (if d1.coin then 2 else 4)) d2.rand1 d2.rand2 (if d2.coin then 2 else 4)) :=
      setCell_is4x4 _ _ _ _ (setCell_is4x4 _ _ _ _ (by decide))
    have hc : countNonZero (setCell (setCell (List.replicate 4 (List.replicate 4 0)) d1.rand1
        d1.rand2 (if d1.coin then 2 else 4)) d2.rand1 d2.rand2 (if d2.coin then 2 else 4))
        = 2 := by
      rw [countNonZero_setCell _ _ _ _ h20 hv2, countNonZero_setCell _ _ _ _ h10 hv1]
      rfl
    have h16 := countZero_add_countNonZero _ h4
    refine ⟨h4, hc, by omega, ?_, d1.rand1, d1.rand2, d2.rand1, d2.rand2, ?_, ?_, ?_⟩
    · intro row hrow v hv
      rcases mem_setCell _ _ _ _ row hrow v hv with rfl | ⟨row1, hr1, hv1'⟩
      · cases d2.coin <;> simp
      · rcases mem_setCell _ _ _ _ row1 hr1 v hv1' with rfl | ⟨row0, hr0, hv0⟩
        · cases d1.coin <;> simp
        · rw [(List.mem_replicate.1 hr0).2] at hv0
          exact Or.inl (List.mem_replicate.1 hv0).2
    · intro heq
      apply hne
      simp only [Prod.mk.injEq] at heq ⊢
      exact ⟨Fin.ext heq.1, Fin.ext heq.2⟩
    · rw [cellAt_setCell_other _ _ _ _ _ _ ?_, cellAt_setCell_same _ _ _ 0 _ h10]
      · cases d1.coin <;> simp
      · intro heq
        apply hne
        simp only [Prod.mk.injEq] at heq ⊢
        exact ⟨(Fin.ext heq.1).symm, (Fin.ext heq.2).symm⟩
    · rw [cellAt_setCell_same _ _ _ 0 _ h20]
      cases d2.coin <;> simp
  · rintro d1 ds rfl ⟨d, hd, hne⟩
    have h10 := cellAt_zeroBoard d1.rand1 d1.rand2
    unfold createInitialBoard
    rw [addRandomTiles_cons_pos d1 ds _ h10]
    apply addRandomTiles_isSome
    refine ⟨d, hd, ?_⟩
    rw [cellAt_setCell_other _ _ _ _ _ _ ?_]
    · exact cellAt_zeroBoard d.rand1 d.rand2
    · intro heq
      apply hne
      simp only [Prod.mk.injEq] at heq ⊢
      exact ⟨Fin.ext heq.1, Fin.ext heq.2⟩

theorem createInitialBoard_spec_witness :
    createInitialBoard [⟨1, 1, true⟩, ⟨1, 1, false⟩, ⟨2, 3, false⟩]
      = some ([[0, 0, 0, 0], [0, 2, 0, 0], [0, 0, 0, 4], [0, 0, 0, 0]], []) ∧
    countNonZero [[0, 0, 0, 0], [0, 2, 0, 0], [0, 0, 0, 4], [0, 0, 0, 0]] = 2 ∧
    ∃ out rest, createInitialBoard [⟨1, 1, true⟩, ⟨1, 1, false⟩, ⟨2, 3, false⟩]
      = some (out, rest) :=
  ⟨by decide,
    ((createInitialBoard_spec [⟨1, 1, true⟩, ⟨1, 1, false⟩, ⟨2, 3, false⟩]).1 _ []
      (by decide)).2.1,
    (createInitialBoard_spec [⟨1, 1, true⟩, ⟨1, 1, false⟩, ⟨2, 3, false⟩]).2 _ _ rfl
      ⟨⟨2, 3, false⟩, by decide, by decide⟩⟩

/-- C8: `handleKeyUp` as a step on the state (board or null, score): when the
board is null, or the key is not one of the four arrow keys (for example
`"Enter"`), the step returns the state unchanged, same board and same score,
and draws no random number. -/
theorem handleKeyUp_ignored (draws : List Draw) (st : State) (key : String)
    (h : st.board = none ∨ key ∉ arrowKeys) :
    handleKeyUp draws st key = some (st, draws) := by
  unfold handleKeyUp
  split
  · rfl
  · rcases h with h | h
    · simp_all
    · rw [if_pos h]

theorem handleKeyUp_ignored_witness :
    handleKeyUp [] ⟨some [[2, 2, 0, 0], [0, 0, 0, 0], [0, 0, 0, 0], [0, 0, 0, 0]], 4⟩ "Enter"
      = some (⟨some [[2, 2, 0, 0], [0, 0, 0, 0], [0, 0, 0, 0], [0, 0, 0, 0]], 4⟩, []) ∧
    handleKeyUp [⟨0, 0, true⟩] initialState "ArrowLeft"
      = some (initialState, [⟨0, 0, true⟩]) :=
  ⟨handleKeyUp_ignored [] _ "Enter" (Or.inr (by decide)),
    handleKeyUp_ignored [⟨0, 0, true⟩] initialState "ArrowLeft" (Or.inl rfl)⟩

/-- C9: for every board and every previous score `s`, `calculateScore board s`
is `s` plus the sum of exactly the cells strictly greater than `s`; the
comparison is with the previous score and not with the running total, as on
`[[3, 5]]` with `s = 2`, where both cells count and the result is 10. -/
theorem calculateScore_spec :
    (∀ (board : Board) (s : Int), calculateScore board s
      = s + (board.map (fun row => (row.filter (fun num => num > s)).sum)).sum) ∧
    calculateScore [[3, 5]] 2 = 10 ∧ calculateScore [[2, 1], [0, 2]] 2 = 2 :=
  ⟨calculateScore_eq, by decide, by decide⟩

/-- C10: for every board with non-negative cells and every previous score
`s ≥ 0`, `calculateScore board s ≥ s ≥ 0`; in every state reachable from the
initial state (score 0) by the mount effect and key presses the score is
non-negative, and a key press from such a state never lowers the score. -/
theorem score_nonneg_monotone :
    (∀ (board : Board) (s : Int), (∀ row ∈ board, ∀ v ∈ row, 0 ≤ v) → 0 ≤ s →
      s ≤ calculateScore board s ∧ 0 ≤ s) ∧
    (∀ st : State, Reachable st → 0 ≤ st.score) ∧
    (∀ (st st' : State) (draws rest : List Draw) (key : String), Reachable st →
      handleKeyUp draws st key = some (st', rest) →
      st.score ≤ st'.score ∧ 0 ≤ st'.score) := by
  refine ⟨fun board s _ hs => ⟨le_calculateScore board s hs, hs⟩,
    reachable_score_nonneg, ?_⟩
  intro st st' draws rest key hr hk
  have h0 := reachable_score_nonneg st hr
  have h1 := handleKeyUp_score_le draws rest st st' key h0 hk
  exact ⟨h1, le_trans h0 h1⟩

theorem score_nonneg_monotone_witness :
    (4 : Int) ≤ calculateScore [[2, 8], [4, 16]] 4 ∧
    handleKeyUp [⟨3, 3, false⟩]
        ⟨some [[2, 2, 0, 0], [0, 0, 0, 0], [0, 0, 0, 0], [0, 0, 0, 0]], 0⟩ "ArrowLeft"
      = some (⟨some [[4, 0, 0, 0], [0, 0, 0, 0], [0, 0, 0, 0], [0, 0, 0, 4]], 8⟩, []) ∧
    (0 : Int) ≤ 8 :=
  ⟨(score_nonneg_monotone.1 [[2, 8], [4, 16]] 4 (by decide) (by decide)).1,
    by decide,
    (score_nonneg_monotone.2.2
      ⟨some [[2, 2, 0, 0], [0, 0, 0, 0], [0, 0, 0, 0], [0, 0, 0, 0]], 0⟩
      ⟨some [[4, 0, 0, 0], [0, 0, 0, 0], [0, 0, 0, 0], [0, 0, 0, 4]], 8⟩
      [⟨3, 3, false⟩] [] "ArrowLeft"
      (@Reachable.mount initialState
        ⟨some [[2, 2, 0, 0], [0, 0, 0, 0], [0, 0, 0, 0], [0, 0, 0, 0]], 0⟩
        [⟨0, 0, true⟩, ⟨0, 1, true⟩] [] Reachable.init (by decide))
      (by decide)).1⟩

/-- C11: on a 4x4 board in which every cell is non-zero the retry loop of
`addRandomTiles` never finds a free cell: for every list of draws, and so for
every finite prefix of every infinite sequence of draws, no board is
returned. -/
theorem addRandomTiles_full_never_returns (bd : Board) (_h4 : is4x4 bd) (hf : isFull bd) :
    (∀ draws : List Draw, addRandomTiles draws bd = none) ∧
    (∀ (draw : Nat → Draw) (n : Nat),
      addRandomTiles ((List.range n).map draw) bd = none) :=
  ⟨fun draws => addRandomTiles_full draws bd hf,
    fun draw n => addRandomTiles_full ((List.range n).map draw) bd hf⟩

theorem addRandomTiles_full_never_returns_witness :
    addRandomTiles [⟨0, 0, true⟩, ⟨1, 2, false⟩, ⟨3, 3, true⟩]
      [[2, 4, 2, 4], [4, 2, 4, 2], [2, 4, 2, 4], [4, 2, 4, 2]] = none :=
  (addRandomTiles_full_never_returns [[2, 4, 2, 4], [4, 2, 4, 2], [2, 4, 2, 4], [4, 2, 4, 2]]
    (by decide) (by decide)).1 [⟨0, 0, true⟩, ⟨1, 2, false⟩, ⟨3, 3, true⟩]

/-- C13: `getColor` maps the eleven values 2, 4, ..., 2048 to eleven pairwise
distinct class strings, none of them the default `"bg-gray-200"`, and every
other value (0, 4096, any value that is not one of the eleven) to the
default. -/
theorem getColor_spec :
    (colouredValues.map getColor).Nodup ∧
    (colouredValues.map getColor).length = 11 ∧
    (∀ v ∈ colouredValues, getColor v ≠ "bg-gray-200") ∧
    (∀ v : Int, v ∉ colouredValues → getColor v = "bg-gray-200") ∧
    getColor 0 = "bg-gray-200" ∧ getColor 4096 = "bg-gray-200" ∧
    getColor 6 = "bg-gray-200" := by
  refine ⟨by decide, by decide, by decide, ?_, by decide, by decide, by decide⟩
  intro v hv
  simp only [colouredValues, List.mem_cons, List.mem_singleton, List.not_mem_nil, or_false,
    not_or] at hv
  obtain ⟨h1, h2, h3, h4, h5, h6, h7, h8, h9, h10, h11⟩ := hv
  simp only [getColor, h1, h2, h3, h4, h5, h6, h7, h8, h9, h10, h11, if_false]

theorem getColor_spec_witness : getColor 4096 = "bg-gray-200" :=
  getColor_spec.2.2.2.1 4096 (by decide)

/-- C15: `mergeRow`, which only tests `row[i] === row[i+1]`, agrees on every
row of length 4 of integers with the merge of the specification, which scans
`i = 0, 1, 2` and merges only entries that are equal and non-zero; every entry
of the result is the input entry at that index, twice that entry, or 0. -/
theorem mergeRow_eq_mergeAdjacent (row : Row) (h : row.length = 4) :
    mergeRow row = mergeAdjacent row ∧
    ∀ (i : Nat) (x y : Int), row[i]? = some x → (mergeRow row)[i]? = some y →
      y = x ∨ y = 2 * x ∨ y = 0 := by
  obtain ⟨a, b, c, d, rfl⟩ := length_four row h
  refine ⟨by rw [mergeRow_four_cases, mergeAdjacent_four_cases], ?_⟩
  obtain ⟨w, x, y, z, hm, hw, hx, hy, hz⟩ := mergeRow_entries_four a b c d
  rw [hm]
  intro i u v hu hv
  rcases i with _ | _ | _ | _ | i
  · simp at hu hv
    rw [← hu, ← hv]
    exact hw
  · simp at hu hv
    rw [← hu, ← hv]
    exact hx
  · simp at hu hv
    rw [← hu, ← hv]
    exact hy
  · simp at hu hv
    rw [← hu, ← hv]
    exact hz
  · simp at hu

theorem mergeRow_eq_mergeAdjacent_witness :
    mergeRow [2, 2, 0, 0] = mergeAdjacent [2, 2, 0, 0] ∧ mergeRow [2, 2, 0, 0] = [4, 0, 0, 0] ∧
    mergeRow [0, 0, -3, -3] = mergeAdjacent [0, 0, -3, -3] :=
  ⟨(mergeRow_eq_mergeAdjacent [2, 2, 0, 0] rfl).1, by decide,
    (mergeRow_eq_mergeAdjacent [0, 0, -3, -3] rfl).1⟩

/-- C17: for every board with non-negative cells and every previous score
`s ≥ 0`, `calculateScore board s` is at least every cell of the board, and
scoring the same board again adds nothing. -/
theorem calculateScore_dominates (board : Board) (s : Int)
    (_hnn : ∀ row ∈ board, ∀ v ∈ row, 0 ≤ v) (hs : 0 ≤ s) :
    (∀ row ∈ board, ∀ v ∈ row, v ≤ calculateScore board s) ∧
    calculateScore board (calculateScore board s) = calculateScore board s := by
  have h : ∀ row ∈ board, ∀ v ∈ row, v ≤ calculateScore board s :=
    fun row hrow v hv => calculateScore_ge_cell board s hs row hrow v hv
  exact ⟨h, calculateScore_of_dominated board _ h⟩

theorem calculateScore_dominates_witness :
    (∀ row ∈ [[2, 8], [4, 16]], ∀ v ∈ row, v ≤ calculateScore [[2, 8], [4, 16]] 4) ∧
    calculateScore [[2, 8], [4, 16]] (calculateScore [[2, 8], [4, 16]] 4)
      = calculateScore [[2, 8], [4, 16]] 4 :=
  calculateScore_dominates [[2, 8], [4, 16]] 4 (by decide) (by decide)

/-- C12, as stated, fails: there are no score `s ≥ 0` and boards `B1`, `B2` with
non-negative cells holding the same value `v` at the same position such that
`v` is added (exceeds the previous score) both in `calculateScore B1 s` and in
the next update `calculateScore B2 (calculateScore B1 s)`. -/
theorem calculateScore_double_count_impossible :
    ¬ ∃ (s : Int) (B1 B2 : Board) (r c : Nat) (v : Int),
      0 ≤ s ∧ (∀ row ∈ B1, ∀ x ∈ row, 0 ≤ x) ∧ (∀ row ∈ B2, ∀ x ∈ row, 0 ≤ x) ∧
      cellAt B1 r c = some v ∧ cellAt B2 r c = some v ∧
      v > s ∧ v > calculateScore B1 s := by
  rintro ⟨s, B1, B2, r, c, v, hs, _, _, h1, _, hv, hv1⟩
  obtain ⟨row, hrow, hmem⟩ := cellAt_mem B1 r c v h1
  have := add_le_calculateScore B1 s hs row hrow v hmem hv
  omega

/-- C12, amended: the scoring never counts a tile in two consecutive updates.
For every score `s ≥ 0` and boards `B1`, `B2` holding the same value `v` at the
same position, if `v` is added in `calculateScore B1 s` (it exceeds `s`), then
`calculateScore B1 s ≥ s + v ≥ v`, so `v` does not exceed the new score and is
not added in `calculateScore B2 (calculateScore B1 s)`. -/
theorem calculateScore_counts_once (s : Int) (B1 B2 : Board) (r c : Nat) (v : Int)
    (hs : 0 ≤ s) (h1 : cellAt B1 r c = some v) (_h2 : cellAt B2 r c = some v)
    (hv : v > s) :
    s + v ≤ calculateScore B1 s ∧ ¬ v > calculateScore B1 s := by
  obtain ⟨row, hrow, hmem⟩ := cellAt_mem B1 r c v h1
  have := add_le_calculateScore B1 s hs row hrow v hmem hv
  exact ⟨this, by omega⟩

theorem calculateScore_counts_once_witness :
    (0 : Int) + 8 ≤ calculateScore [[8, 2], [0, 0]] 0 ∧
    ¬ (8 : Int) > calculateScore [[8, 2], [0, 0]] 0 :=
  calculateScore_counts_once 0 [[8, 2], [0, 0]] [[8, 0], [0, 4]] 0 0 8 (by decide)
    (by decide) (by decide) (by decide)

/-- C14: each arrow key slides the tiles toward the side it names. On every
4x4 board of non-negative integers the board after rotate, compress / merge /
compress on every row and rotate back (`moveTiles` before the spawn) is 4x4 and
has, for `"ArrowLeft"`, no zero cell to the left of a non-zero cell in any row;
for `"ArrowRight"`, no zero cell to the right of a non-zero cell in any row; for
`"ArrowUp"`, no zero cell above a non-zero cell in any column; for
`"ArrowDown"`, no zero cell below a non-zero cell in any column. -/
theorem slide_toward_side (bd : Board) (h4 : is4x4 bd) (_hnn : ∀ row ∈ bd, ∀ v ∈ row, 0 ≤ v) :
    (∀ d ∈ arrowKeys, is4x4 (slide bd d)) ∧
    (∀ (r c1 c2 : Nat) (v : Int), c1 < c2 → cellAt (slide bd "ArrowLeft") r c1 = some 0 →
      cellAt (slide bd "ArrowLeft") r c2 = some v → v = 0) ∧
    (∀ (r c1 c2 : Nat) (v : Int), c1 < c2 → cellAt (slide bd "ArrowRight") r c2 = some 0 →
      cellAt (slide bd "ArrowRight") r c1 = some v → v = 0) ∧
    (∀ (r1 r2 c : Nat) (v : Int), r1 < r2 → cellAt (slide bd "ArrowUp") r1 c = some 0 →
      cellAt (slide bd "ArrowUp") r2 c = some v → v = 0) ∧
    (∀ (r1 r2 c : Nat) (v : Int), r1 < r2 → cellAt (slide bd "ArrowDown") r2 c = some 0 →
      cellAt (slide bd "ArrowDown") r1 c = some v → v = 0) :=
  ⟨fun d hd => (slide_cells (fun _ => True) trivial (fun _ _ => trivial) bd h4
      (fun _ _ _ _ => trivial) d hd).1,
    slide_left_zero_order bd h4, slide_right_zero_order bd h4,
    slide_up_zero_order bd h4, slide_down_zero_order bd h4⟩

theorem slide_toward_side_witness :
    slide [[0, 2, 0, 2], [4, 0, 0, 0], [0, 0, 0, 8], [2, 4, 2, 4]] "ArrowDown"
      = [[0, 0, 0, 0], [0, 0, 0, 2], [4, 2, 0, 8], [2, 4, 2, 4]] ∧
    slide [[0, 2, 0, 2], [4, 0, 0, 0], [0, 0, 0, 8], [2, 4, 2, 4]] "ArrowRight"
      = [[0, 0, 0, 4], [0, 0, 0, 4], [0, 0, 0, 8], [2, 4, 2, 4]] ∧
    (∀ (r1 r2 c : Nat) (v : Int), r1 < r2 →
      cellAt (slide [[0, 2, 0, 2], [4, 0, 0, 0], [0, 0, 0, 8], [2, 4, 2, 4]] "ArrowDown") r2 c
        = some 0 →
      cellAt (slide [[0, 2, 0, 2], [4, 0, 0, 0], [0, 0, 0, 8], [2, 4, 2, 4]] "ArrowDown") r1 c
        = some v → v = 0) :=
  ⟨by decide, by decide,
    (slide_toward_side [[0, 2, 0, 2], [4, 0, 0, 0], [0, 0, 0, 8], [2, 4, 2, 4]]
      (by decide) (by decide)).2.2.2.2⟩

/-- C16: a move conserves tile mass. On every 4x4 board of non-negative
integers and for every arrow direction, rotation, compression, merging and
rotation back leave the sum of the cells unchanged, so the slide does; for
every list of draws on which the spawn ends, the sum of the cells of
`moveTiles` is the sum of the cells of the board plus the spawned value, 2 or
4, and so `moveTiles` never returns a board equal to its input. The spawn ends
as soon as a draw names a zero cell of the slid board. -/
theorem moveTiles_mass (bd : Board) (h4 : is4x4 bd) (_hnn : ∀ row ∈ bd, ∀ v ∈ row, 0 ≤ v)
    (direction : String) (hd : direction ∈ arrowKeys) :
    boardSum (rotateBoard bd direction) = boardSum bd ∧
    boardSum (rotateBoardBack bd direction) = boardSum bd ∧
    (∀ row : Row, row.length = 4 →
      (compressRow row).sum = row.sum ∧ (mergeRow row).sum = row.sum ∧
      (processRow row).sum = row.sum) ∧
    boardSum (slide bd direction) = boardSum bd ∧
    (∀ draws : List Draw,
      ((∃ d ∈ draws, cellAt (slide bd direction) d.rand1 d.rand2 = some 0) →
        ∃ out rest, moveTiles draws bd direction = some (out, rest)) ∧
      ∀ out rest, moveTiles draws bd direction = some (out, rest) →
        (∃ v : Int, (v = 2 ∨ v = 4) ∧ boardSum out = boardSum bd + v) ∧ out ≠ bd) := by
  refine ⟨boardSum_rotateBoard bd h4 direction hd, boardSum_rotateBoardBack bd h4 direction hd,
    ?_, boardSum_slide bd h4 direction hd, fun draws => ⟨addRandomTiles_isSome draws _, ?_⟩⟩
  · intro row hrow
    obtain ⟨a, b, c, d, rfl⟩ := length_four row hrow
    refine ⟨compressRow_sum _, ?_, ?_⟩
    · rw [mergeRow_sum_four]
      simp only [List.sum_cons, List.sum_nil]
      omega
    · rw [processRow_sum_four]
      simp only [List.sum_cons, List.sum_nil]
      omega
  · intro out rest h
    obtain ⟨d, _, h0, rfl⟩ := addRandomTiles_some draws _ out rest h
    have hs : boardSum (setCell (slide bd direction) d.rand1 d.rand2 (if d.coin then 2 else 4))
        = boardSum bd + (if d.coin then 2 else 4) := by
      rw [boardSum_setCell _ _ _ _ h0, boardSum_slide bd h4 direction hd]
    have hv : (if d.coin then (2 : Int) else 4) = 2 ∨ (if d.coin then (2 : Int) else 4) = 4 := by
      split_ifs
      · exact Or.inl rfl
      · exact Or.inr rfl
    refine ⟨⟨_, hv, hs⟩, ?_⟩
    intro heq
    rw [heq] at hs
    rcases hv with hv | hv <;> rw [hv] at hs <;> omega

theorem moveTiles_mass_witness :
    moveTiles [⟨0, 0, true⟩, ⟨0, 1, false⟩]
        [[2, 0, 0, 0], [4, 2, 0, 0], [0, 0, 0, 0], [0, 0, 0, 0]] "ArrowLeft"
      = some ([[2, 4, 0, 0], [4, 2, 0, 0], [0, 0, 0, 0], [0, 0, 0, 0]], []) ∧
    slide [[2, 0, 0, 0], [4, 2, 0, 0], [0, 0, 0, 0], [0, 0, 0, 0]] "ArrowLeft"
      = [[2, 0, 0, 0], [4, 2, 0, 0], [0, 0, 0, 0], [0, 0, 0, 0]] ∧
    ((∃ v : Int, (v = 2 ∨ v = 4) ∧
        boardSum [[2, 4, 0, 0], [4, 2, 0, 0], [0, 0, 0, 0], [0, 0, 0, 0]]
          = boardSum [[2, 0, 0, 0], [4, 2, 0, 0], [0, 0, 0, 0], [0, 0, 0, 0]] + v) ∧
      ([[2, 4, 0, 0], [4, 2, 0, 0], [0, 0, 0, 0], [0, 0, 0, 0]] : Board)
        ≠ [[2, 0, 0, 0], [4, 2, 0, 0], [0, 0, 0, 0], [0, 0, 0, 0]]) :=
  ⟨by decide, by decide,
    ((moveTiles_mass [[2, 0, 0, 0], [4, 2, 0, 0], [0, 0, 0, 0], [0, 0, 0, 0]] (by decide)
      (by decide) "ArrowLeft" (by decide)).2.2.2.2 [⟨0, 0, true⟩, ⟨0, 1, false⟩]).2 _ []
      (by decide)⟩

/-- C18: a move on a stuck full board never returns. On every 4x4 board with
no zero cell in which, for the given arrow direction, no two cells adjacent
along the direction of travel are equal, the slide returns the board itself,
which is full, and `moveTiles`, which calls `addRandomTiles` unconditionally,
returns no board for any list of draws, hence for any finite prefix of any
infinite sequence of draws. -/
theorem moveTiles_stuck_never_returns (bd : Board) (h4 : is4x4 bd) (hf : isFull bd)
    (direction : String) (hd : direction ∈ arrowKeys) (hne : noEqualAlong bd direction) :
    slide bd direction = bd ∧ isFull (slide bd direction) ∧
    (∀ draws : List Draw, moveTiles draws bd direction = none) ∧
    (∀ (draw : Nat → Draw) (n : Nat),
      moveTiles ((List.range n).map draw) bd direction = none) := by
  have hs := slide_stuck bd h4 hf direction hd hne
  refine ⟨hs, by rw [hs]; exact hf, fun draws => ?_, fun draw n => ?_⟩
  · unfold moveTiles
    rw [hs]
    exact addRandomTiles_full draws bd hf
  · unfold moveTiles
    rw [hs]
    exact addRandomTiles_full _ bd hf

theorem moveTiles_stuck_never_returns_witness :
    (∀ draws : List Draw,
      moveTiles draws [[2, 4, 2, 4], [4, 2, 4, 2], [2, 4, 2, 4], [4, 2, 4, 2]] "ArrowUp"
        = none) ∧
    (∀ draws : List Draw,
      moveTiles draws [[2, 4, 2, 4], [4, 2, 4, 2], [2, 4, 2, 4], [4, 2, 4, 2]] "ArrowDown"
        = none) ∧
    (∀ draws : List Draw,
      moveTiles draws [[2, 4, 2, 4], [4, 2, 4, 2], [2, 4, 2, 4], [4, 2, 4, 2]] "ArrowLeft"
        = none) ∧
    (∀ draws : List Draw,
      moveTiles draws [[2, 4, 2, 4], [4, 2, 4, 2], [2, 4, 2, 4], [4, 2, 4, 2]] "ArrowRight"
        = none) :=
  ⟨(moveTiles_stuck_never_returns [[2, 4, 2, 4], [4, 2, 4, 2], [2, 4, 2, 4], [4, 2, 4, 2]]
      (by decide) (by decide) "ArrowUp" (by decide) (by decide)).2.2.1,
    (moveTiles_stuck_never_returns [[2, 4, 2, 4], [4, 2, 4, 2], [2, 4, 2, 4], [4, 2, 4, 2]]
      (by decide) (by decide) "ArrowDown" (by decide) (by decide)).2.2.1,
    (moveTiles_stuck_never_returns [[2, 4, 2, 4], [4, 2, 4, 2], [2, 4, 2, 4], [4, 2, 4, 2]]
      (by decide) (by decide) "ArrowLeft" (by decide) (by decide)).2.2.1,
    (moveTiles_stuck_never_returns [[2, 4, 2, 4], [4, 2, 4, 2], [2, 4, 2, 4], [4, 2, 4, 2]]
      (by decide) (by decide) "ArrowRight" (by decide) (by decide)).2.2.1⟩

end GameBoard
